import Mathlib

/-!
Shallow embedding of the citymux pane-layout engine and rendering pipeline.

Sources embedded here:
* `crates/renterm/src/vector.rs`, `rect.rs`, `cell.rs`, `style.rs`, `color.rs`,
  `canvas.rs`, `view.rs` (the grid/surface abstraction, scalar `i32` modelled
  as `Int`),
* `src/span.rs` (the layout tree and `find_by_id`),
* `src/layout.rs` (`get_span_dimensions`; `f64` weights modelled as `ℚ`),
* `src/spawn.rs` (`create_span`, `remove_node`),
* `src/canvas.rs` (the older `isize`-based canvas used by `src/draw.rs`),
* `src/draw.rs` (`find_span_dimensions` and the byte emission of `draw`),
* `src/escape_codes.rs` (the escape sequences used by `draw`),
* `src/term.rs` (`TerminalInfo` size clamping).
-/

namespace Citymux

/-- `Vector2` from `crates/renterm/src/vector.rs` (`DefaultScalar = i32`,
modelled as `Int`).  The `isize`-based `Vector2` of `src/canvas.rs` has the
same structure and is shared. -/
structure Vector2 where
  x : Int
  y : Int
deriving DecidableEq, Repr

def Vector2.null : Vector2 := ⟨0, 0⟩

/-- Componentwise max (`Vector2::max`). -/
def Vector2.max (a b : Vector2) : Vector2 := ⟨Max.max a.x b.x, Max.max a.y b.y⟩

/-- Componentwise min (`Vector2::min`). -/
def Vector2.min (a b : Vector2) : Vector2 := ⟨Min.min a.x b.x, Min.min a.y b.y⟩

instance : Add Vector2 := ⟨fun a b => ⟨a.x + b.x, a.y + b.y⟩⟩
instance : Sub Vector2 := ⟨fun a b => ⟨a.x - b.x, a.y - b.y⟩⟩

@[simp] theorem Vector2.add_def (a b : Vector2) : a + b = ⟨a.x + b.x, a.y + b.y⟩ := rfl

@[simp] theorem Vector2.sub_def (a b : Vector2) : a - b = ⟨a.x - b.x, a.y - b.y⟩ := rfl

/-- `Rect` from `crates/renterm/src/rect.rs`: a position and a size. -/
structure Rect where
  position : Vector2
  size : Vector2
deriving DecidableEq, Repr

/-- `Rect::new`: the size is clamped to be non-negative on construction. -/
def Rect.new (position size : Vector2) : Rect := ⟨position, size.max .null⟩

/-- `Rect::contains`. -/
def Rect.contains (r : Rect) (v : Vector2) : Bool :=
  v.x ≥ r.position.x && v.y ≥ r.position.y &&
  v.x < r.position.x + r.size.x && v.y < r.position.y + r.size.y

def Rect.topLeft (r : Rect) : Vector2 := r.position

def Rect.bottomRight (r : Rect) : Vector2 := r.position + r.size

/-- `SpanDirection` from `src/span.rs`. -/
inductive SpanDirection where
  | horizontal
  | vertical
deriving DecidableEq, Repr

mutual
/-- The layout tree of `src/span.rs`.  `Node { id, data: NodeData::Void }` is
`Node.void id`; `Node { id, data: NodeData::Span(Span { direction, children }) }`
is `Node.span id direction children`.  A `SpanChild { size, node }` is a
`ChildList.cons size node _` entry; `f64` weights are modelled as `ℚ`. -/
inductive Node where
  | void (id : Nat)
  | span (id : Nat) (direction : SpanDirection) (children : ChildList)

inductive ChildList where
  | nil
  | cons (size : Rat) (node : Node) (rest : ChildList)
end

/-- `Node::id`. -/
def Node.id : Node → Nat
  | .void i => i
  | .span i _ _ => i

def ChildList.length : ChildList → Nat
  | .nil => 0
  | .cons _ _ rest => 1 + rest.length

/-- The list of direct child ids of a children list. -/
def childIds : ChildList → List Nat
  | .nil => []
  | .cons _ n rest => n.id :: childIds rest

/-- The list of child weights (`SpanChild::size`). -/
def weightsList : ChildList → List Rat
  | .nil => []
  | .cons w _ rest => w :: weightsList rest

/-- `total` in `get_span_dimensions`: the fold `acc + child.size`. -/
def sumWeights (c : ChildList) : Rat := (weightsList c).sum

mutual
/-- All node ids of a subtree, in depth-first order (self first). -/
def allIds : Node → List Nat
  | .void i => [i]
  | .span i _ children => i :: allIdsChildren children

def allIdsChildren : ChildList → List Nat
  | .nil => []
  | .cons _ n rest => allIds n ++ allIdsChildren rest
termination_by structural c => c
end

mutual
/-- The ids of the `Void` leaves of a subtree, in depth-first order. -/
def leafIds : Node → List Nat
  | .void i => [i]
  | .span _ _ children => leafIdsChildren children

def leafIdsChildren : ChildList → List Nat
  | .nil => []
  | .cons _ n rest => leafIds n ++ leafIdsChildren rest
termination_by structural c => c
end

mutual
/-- Number of nodes in a subtree. -/
def nodeCount : Node → Nat
  | .void _ => 1
  | .span _ _ children => 1 + nodeCountChildren children

def nodeCountChildren : ChildList → Nat
  | .nil => 0
  | .cons _ n rest => nodeCount n + nodeCountChildren rest
termination_by structural c => c
end

/-- The `k`-th child node of a children list. -/
def childAt : ChildList → Nat → Option Node
  | .nil, _ => none
  | .cons _ n _, 0 => some n
  | .cons _ _ rest, k + 1 => childAt rest k

/-- The node reached from `root` by following the given child indices. -/
def nodeAtPath (root : Node) : List Nat → Option Node
  | [] => some root
  | k :: ks =>
    match root with
    | .void _ => none
    | .span _ _ children =>
      match childAt children k with
      | some c => nodeAtPath c ks
      | none => none

/-! ## `get_span_dimensions` (`src/layout.rs`) -/

/-- One entry of the `sizes` vector in `get_span_dimensions`: the floor of the
parent extent times `ratio = size / total` along the span axis, the full
parent extent on the cross axis. -/
def baseSize (dir : SpanDirection) (parentSize : Vector2) (total w : Rat) : Vector2 :=
  match dir with
  | .horizontal => ⟨⌊(parentSize.x : ℚ) * (w / total)⌋, parentSize.y⟩
  | .vertical => ⟨parentSize.x, ⌊(parentSize.y : ℚ) * (w / total)⌋⟩

def baseSizes (dir : SpanDirection) (parentSize : Vector2) (total : Rat)
    (ws : List Rat) : List Vector2 :=
  ws.map (baseSize dir parentSize total)

/-- The smallest `x` of a list of sizes (`min_by_key` key). -/
def minX : List Vector2 → Int
  | [] => 0
  | v :: t => t.foldl (fun a u => Min.min a u.x) v.x

/-- The smallest `y` of a list of sizes. -/
def minY : List Vector2 → Int
  | [] => 0
  | v :: t => t.foldl (fun a u => Min.min a u.y) v.y

/-- `sizes[smallest].x += 1` where `smallest` is the first index attaining the
minimum `x` (Rust `Iterator::min_by_key` returns the first minimum). -/
def incFirstX (m : Int) : List Vector2 → List Vector2
  | [] => []
  | v :: t => if v.x = m then ⟨v.x + 1, v.y⟩ :: t else v :: incFirstX m t

def incFirstY (m : Int) : List Vector2 → List Vector2
  | [] => []
  | v :: t => if v.y = m then ⟨v.x, v.y + 1⟩ :: t else v :: incFirstY m t

/-- The `while remaining_size.x > 0` loop of `get_span_dimensions`
(`SpanDirection::Horizontal` arm); the fuel is the exact iteration count
`remaining_size.x.toNat`, and the `else break` on an empty list is the
`None`-from-`min_by_key` break. -/
def distLoopX : Nat → List Vector2 → List Vector2
  | 0, sizes => sizes
  | n + 1, sizes =>
    if sizes.isEmpty then sizes else distLoopX n (incFirstX (minX sizes) sizes)

def distLoopY : Nat → List Vector2 → List Vector2
  | 0, sizes => sizes
  | n + 1, sizes =>
    if sizes.isEmpty then sizes else distLoopY n (incFirstY (minY sizes) sizes)

/-- The complete `sizes` vector of `get_span_dimensions` after the remainder
distribution loops: floor shares, then the leftover extent handed one unit at
a time to the currently-smallest child. -/
def distributedSizes (dir : SpanDirection) (parentDims : Rect)
    (children : ChildList) : List Vector2 :=
  let total := sumWeights children
  let sizes := baseSizes dir parentDims.size total (weightsList children)
  let remaining := sizes.foldl (fun r s => r - s) parentDims.size
  match dir with
  | .horizontal => distLoopX remaining.x.toNat sizes
  | .vertical => distLoopY remaining.y.toNat sizes

/-- The `position` of the next child from the previous child's position and
size (`last_position`/`last_size` recurrence in `get_span_dimensions`). -/
def nextPosition (dir : SpanDirection) (lastPos lastSize : Vector2) : Vector2 :=
  match dir with
  | .horizontal => ⟨lastPos.x + lastSize.x, lastPos.y⟩
  | .vertical => ⟨lastPos.x, lastPos.y + lastSize.y⟩

mutual
/-- `get_span_dimensions` from `src/layout.rs`. -/
def getSpanDimensions (node : Node) (spanId : Nat) (parentDims : Rect) : Option Rect :=
  if node.id = spanId then some parentDims
  else
    match node with
    | .void _ => none
    | .span _ dir children =>
      searchChildren spanId dir children (distributedSizes dir parentDims children)
        parentDims.position ⟨0, 0⟩
termination_by structural node

/-- The final `for` loop of `get_span_dimensions`: walk the children together
with their computed sizes, recursing into each child's rectangle and returning
the first hit. -/
def searchChildren (spanId : Nat) (dir : SpanDirection) (children : ChildList)
    (sizes : List Vector2) (lastPos lastSize : Vector2) : Option Rect :=
  match children, sizes with
  | .nil, _ => none
  | .cons _ _ _, [] => none
  | .cons _ n rest, s :: srest =>
    let pos := nextPosition dir lastPos lastSize
    match getSpanDimensions n spanId (Rect.new pos s) with
    | some r => some r
    | none => searchChildren spanId dir rest srest pos s
termination_by structural children
end

mutual
/-- The rectangle every `Void` leaf receives when the tree is laid out into
`parentDims`, paired with the leaf's id, in depth-first order.  Uses the same
size/position computation as `get_span_dimensions`. -/
def leafRects (node : Node) (parentDims : Rect) : List (Nat × Rect) :=
  match node with
  | .void i => [(i, parentDims)]
  | .span _ dir children =>
    leafRectsChildren dir children (distributedSizes dir parentDims children)
      parentDims.position ⟨0, 0⟩
termination_by structural node

def leafRectsChildren (dir : SpanDirection) (children : ChildList)
    (sizes : List Vector2) (lastPos lastSize : Vector2) : List (Nat × Rect) :=
  match children, sizes with
  | .nil, _ => []
  | .cons _ _ _, [] => []
  | .cons _ n rest, s :: srest =>
    let pos := nextPosition dir lastPos lastSize
    leafRects n (Rect.new pos s) ++ leafRectsChildren dir rest srest pos s
termination_by structural children
end

mutual
/-- All span-node weights in the subtree are positive (the steady-state weight
invariant; weights are created as `1.0` or as a positive average). -/
def posWeights : Node → Bool
  | .void _ => true
  | .span _ _ children => posWeightsChildren children

def posWeightsChildren : ChildList → Bool
  | .nil => true
  | .cons w n rest => decide (0 < w) && posWeights n && posWeightsChildren rest
end

mutual
/-- Every span node in the subtree has at least one child (the collapsed-spans
invariant of §4.2). -/
def spansNonempty : Node → Bool
  | .void _ => true
  | .span _ _ children => !children.length.beq 0 && spansNonemptyChildren children

def spansNonemptyChildren : ChildList → Bool
  | .nil => true
  | .cons _ n rest => spansNonempty n && spansNonemptyChildren rest
end

/-! ## `find_by_id` and tree mutation (`src/span.rs`, `src/spawn.rs`) -/

mutual
/-- Whether the subtree contains a node with the given id (the success
condition of `find_by_id_internal`). -/
def containsId : Node → Nat → Bool
  | .void i, id => i.beq id
  | .span i _ children, id => i.beq id || childrenContainId children id

def childrenContainId : ChildList → Nat → Bool
  | .nil, _ => false
  | .cons _ n rest, id => containsId n id || childrenContainId rest id
end

mutual
/-- `find_by_id_internal` from `src/span.rs`.  `anc` is the accumulated `path`
before this node is pushed; the returned path lists the ids of the strict
ancestors of the found node, the immediate parent last. -/
def findByIdAux (node : Node) (id : Nat) (anc : List Nat) : Option (Node × List Nat) :=
  if node.id = id then some (node, anc)
  else
    match node with
    | .void _ => none
    | .span i _ children => findInChildren children id (anc ++ [i])

def findInChildren (children : ChildList) (id : Nat) (anc : List Nat) :
    Option (Node × List Nat) :=
  match children with
  | .nil => none
  | .cons _ n rest =>
    if n.id = id then some (n, anc)
    else
      match findByIdAux n id anc with
      | some r => some r
      | none => findInChildren rest id anc
end

/-- `Node::find_by_id`. -/
def findById (node : Node) (id : Nat) : Option (Node × List Nat) :=
  findByIdAux node id []

mutual
/-- Apply `f` to the node `find_by_id` would return for `id` (the first match
in depth-first order), leaving the rest of the tree unchanged.  This is the
functional counterpart of mutating through the `&mut Node` that `find_by_id`
returns. -/
def mutateFirst (node : Node) (id : Nat) (f : Node → Node) : Node :=
  if node.id = id then f node
  else
    match node with
    | .void _ => node
    | .span i dir children => .span i dir (mutateInChildren children id f)

def mutateInChildren (children : ChildList) (id : Nat) (f : Node → Node) : ChildList :=
  match children with
  | .nil => .nil
  | .cons s n rest =>
    if containsId n id then .cons s (mutateFirst n id f) rest
    else .cons s n (mutateInChildren rest id f)
end

/-- Replace a span node's children list (`Void` nodes are unchanged). -/
def Node.withChildren : Node → ChildList → Node
  | .void i, _ => .void i
  | .span i dir _, c => .span i dir c

/-- The index of the first child whose node id matches (the `for`/`index`
scan in `remove_node`). -/
def childIndexOf : ChildList → Nat → Option Nat
  | .nil, _ => none
  | .cons _ n rest, id =>
    if n.id = id then some 0
    else (childIndexOf rest id).map (· + 1)

/-- `span.children.remove(index)`. -/
def childEraseIdx : ChildList → Nat → ChildList
  | .nil, _ => .nil
  | .cons _ _ rest, 0 => rest
  | .cons s n rest, k + 1 => .cons s n (childEraseIdx rest k)

/-- `span.children.last()`. -/
def childLast? : ChildList → Option Node
  | .nil => none
  | .cons _ n .nil => some n
  | .cons _ _ (.cons s n rest) => childLast? (.cons s n rest)

mutual
/-- The first node in depth-first order with the given id — the node whose
`&mut` `find_by_id` returns and `mutateFirst` rewrites. -/
def firstFound? (node : Node) (id : Nat) : Option Node :=
  if node.id = id then some node
  else
    match node with
    | .void _ => none
    | .span _ _ children => firstFoundInChildren children id

def firstFoundInChildren : ChildList → Nat → Option Node
  | .nil, _ => none
  | .cons _ n rest, id =>
    if containsId n id then firstFound? n id else firstFoundInChildren rest id
end

theorem beq_false_of_ne {i j : Nat} (h : ¬ i = j) : i.beq j = false := by
  cases hbi : i.beq j
  · rfl
  · exact absurd (Nat.eq_of_beq_eq_true hbi) h

theorem containsId_of_id_eq (node : Node) (id : Nat) (h : node.id = id) :
    containsId node id = true := by
  cases node with
  | void i => simp [containsId, Node.id] at h ⊢; omega
  | span i dir children => simp [containsId, Node.id] at h ⊢; left; omega

mutual
theorem findByIdAux_isSome (node : Node) (id : Nat) (anc : List Nat) :
    (findByIdAux node id anc).isSome = containsId node id := by
  rw [findByIdAux.eq_def]
  by_cases h : node.id = id
  · simp [h, containsId_of_id_eq node id h]
  · cases node with
    | void i =>
      simp only [Node.id] at h
      have hb : (i.beq id) = false := beq_false_of_ne h
      simp [Node.id, h, containsId, hb]
    | span i dir children =>
      simp only [Node.id] at h
      have hb : (i.beq id) = false := beq_false_of_ne h
      simp only [Node.id, h, if_false]
      rw [findInChildren_isSome]
      simp [containsId, hb]

theorem findInChildren_isSome (c : ChildList) (id : Nat) (anc : List Nat) :
    (findInChildren c id anc).isSome = childrenContainId c id := by
  rw [findInChildren.eq_def]
  cases c with
  | nil => simp [childrenContainId]
  | cons s n rest =>
    by_cases h : n.id = id
    · simp [h, childrenContainId, containsId_of_id_eq n id h]
    · simp only [h, if_false]
      rcases hfa : findByIdAux n id anc with _ | r
      · have hs := findByIdAux_isSome n id anc
        rw [hfa] at hs
        simp only [Option.isSome_none] at hs
        simp [childrenContainId, ← hs, findInChildren_isSome rest id anc]
      · have hs := findByIdAux_isSome n id anc
        rw [hfa] at hs
        simp only [Option.isSome_some] at hs
        simp [childrenContainId, ← hs]
end

mutual
theorem findByIdAux_firstFound (node : Node) (id : Nat) (anc : List Nat)
    (p : Node) (path : List Nat) (h : findByIdAux node id anc = some (p, path)) :
    firstFound? node id = some p := by
  rw [findByIdAux.eq_def] at h
  by_cases hid : node.id = id
  · simp only [hid, if_true, Option.some.injEq, Prod.mk.injEq] at h
    obtain ⟨rfl, rfl⟩ := h
    rw [firstFound?.eq_def]
    simp [hid]
  · cases node with
    | void i =>
      simp only [Node.id] at hid
      simp [Node.id, hid] at h
    | span i dir children =>
      simp only [Node.id] at hid
      simp only [Node.id, hid, if_false] at h
      rw [firstFound?.eq_def]
      simp only [Node.id, hid, if_false]
      exact findInChildren_firstFound children id _ p path h

theorem findInChildren_firstFound (c : ChildList) (id : Nat) (anc : List Nat)
    (p : Node) (path : List Nat) (h : findInChildren c id anc = some (p, path)) :
    firstFoundInChildren c id = some p := by
  rw [findInChildren.eq_def] at h
  cases c with
  | nil => simp at h
  | cons s n rest =>
    simp only [firstFoundInChildren]
    by_cases hid : n.id = id
    · simp only [hid, if_true, Option.some.injEq, Prod.mk.injEq] at h
      obtain ⟨rfl, rfl⟩ := h
      rw [containsId_of_id_eq n id hid]
      simp only [if_true]
      rw [firstFound?.eq_def]
      simp [hid]
    · simp only [hid, if_false] at h
      rcases hfa : findByIdAux n id anc with _ | r
      · rw [hfa] at h
        simp only [] at h
        have hc : containsId n id = false := by
          have hs := findByIdAux_isSome n id anc
          rw [hfa] at hs
          simpa using hs.symm
        rw [hc]
        simp only [Bool.false_eq_true, if_false]
        exact findInChildren_firstFound rest id anc p path h
      · rw [hfa] at h
        simp only [Option.some.injEq] at h
        have hc : containsId n id = true := by
          have hs := findByIdAux_isSome n id anc
          rw [hfa] at hs
          simpa using hs.symm
        rw [hc]
        simp only [if_true]
        apply findByIdAux_firstFound n id anc p path
        rw [hfa, h]
end

theorem nodeCount_pos (n : Node) : 0 < nodeCount n := by
  cases n <;> simp [nodeCount]

mutual
theorem mutateFirst_count (node : Node) (id : Nat) (f : Node → Node)
    (h : containsId node id = true) :
    ∃ p, firstFound? node id = some p ∧
      nodeCount (mutateFirst node id f) + nodeCount p
        = nodeCount node + nodeCount (f p) := by
  by_cases hid : node.id = id
  · refine ⟨node, ?_, ?_⟩
    · rw [firstFound?.eq_def]
      simp [hid]
    · rw [mutateFirst.eq_def]
      simp [hid]
      omega
  · cases node with
    | void i =>
      simp only [Node.id] at hid
      simp [containsId] at h
      omega
    | span i dir children =>
      simp only [Node.id] at hid
      have hc : childrenContainId children id = true := by
        simp [containsId] at h
        rcases h with h | h
        · omega
        · exact h
      obtain ⟨p, hp, heq⟩ := mutateInChildren_count children id f hc
      refine ⟨p, ?_, ?_⟩
      · rw [firstFound?.eq_def]
        simp [Node.id, hid, hp]
      · rw [mutateFirst.eq_def]
        simp only [Node.id, hid, if_false]
        simp [nodeCount]
        omega

theorem mutateInChildren_count (c : ChildList) (id : Nat) (f : Node → Node)
    (h : childrenContainId c id = true) :
    ∃ p, firstFoundInChildren c id = some p ∧
      nodeCountChildren (mutateInChildren c id f) + nodeCount p
        = nodeCountChildren c + nodeCount (f p) := by
  cases c with
  | nil => simp [childrenContainId] at h
  | cons s n rest =>
    by_cases hc : containsId n id = true
    · obtain ⟨p, hp, heq⟩ := mutateFirst_count n id f hc
      refine ⟨p, ?_, ?_⟩
      · rw [firstFoundInChildren.eq_def]
        simp [hc, hp]
      · rw [mutateInChildren.eq_def]
        simp [hc, nodeCountChildren]
        omega
    · have hrest : childrenContainId rest id = true := by
        simp [childrenContainId] at h
        rcases h with h | h
        · exact absurd h hc
        · exact h
      obtain ⟨p, hp, heq⟩ := mutateInChildren_count rest id f hrest
      refine ⟨p, ?_, ?_⟩
      · rw [firstFoundInChildren.eq_def]
        simp [hc, hp]
      · rw [mutateInChildren.eq_def]
        simp [hc, nodeCountChildren]
        omega
end

theorem childIndexOf_eraseIdx_count :
    ∀ (c : ChildList) (id k : Nat), childIndexOf c id = some k →
      nodeCountChildren (childEraseIdx c k) < nodeCountChildren c
  | .nil, id, k, h => by simp [childIndexOf] at h
  | .cons s n rest, id, k, h => by
    by_cases hid : n.id = id
    · simp [childIndexOf, hid] at h
      subst h
      simp [childEraseIdx, nodeCountChildren]
      have := nodeCount_pos n
      omega
    · simp [childIndexOf, hid] at h
      obtain ⟨k', hk', rfl⟩ := h
      simp [childEraseIdx, nodeCountChildren]
      exact childIndexOf_eraseIdx_count rest id k' hk'

theorem removeNode_decreasing (root : Node) (parentId : Nat) (parent : Node)
    (tail : List Nat) (i : Nat) (dir : SpanDirection) (children : ChildList)
    (id k : Nat)
    (hp : findById root parentId = some (parent, tail))
    (hs : parent = .span i dir children)
    (hi : childIndexOf children id = some k) :
    nodeCount (mutateFirst root parentId (Node.withChildren · (childEraseIdx children k)))
      < nodeCount root := by
  have hc : containsId root parentId = true := by
    have := findByIdAux_isSome root parentId []
    rw [findById] at hp
    rw [hp] at this
    simpa using this.symm
  have hff : firstFound? root parentId = some parent :=
    findByIdAux_firstFound root parentId [] parent tail hp
  obtain ⟨p, hp', heq⟩ :=
    mutateFirst_count root parentId (Node.withChildren · (childEraseIdx children k)) hc
  rw [hff] at hp'
  injection hp' with hp'
  subst hp'
  subst hs
  have hlt := childIndexOf_eraseIdx_count children id k hi
  have e1 : nodeCount (Node.span i dir children) = 1 + nodeCountChildren children := rfl
  have e2 : nodeCount ((fun n => Node.withChildren n (childEraseIdx children k))
      (Node.span i dir children))
      = 1 + nodeCountChildren (childEraseIdx children k) := rfl
  rw [e1, e2] at heq
  omega

/-- `remove_node` from `src/spawn.rs`: returns the mutated tree together with
the id the caller stores as the new active pane (`None` signals that no pane
remains). -/
def removeNode (root : Node) (id : Nat) : Except String (Node × Option Nat) :=
  if root.id = id then .ok (.void root.id, none)
  else
    match findById root id with
    | none => .error "Could not find node with id"
    | some (_, path) =>
      match path.getLast? with
      | none => .error "Could not find parent node id"
      | some parentId =>
        match hp : findById root parentId with
        | none => .error "Could not find parent node"
        | some (parent, _) =>
          match hs : parent with
          | .void _ => .error "Could not remove node"
          | .span _ _ children =>
            match hi : childIndexOf children id with
            | none => .error "Could not find child index"
            | some k =>
              match childLast? (childEraseIdx children k) with
              | some lastN =>
                .ok (mutateFirst root parentId
                      (Node.withChildren · (childEraseIdx children k)),
                     some lastN.id)
              | none =>
                removeNode (mutateFirst root parentId
                      (Node.withChildren · (childEraseIdx children k))) parentId
termination_by nodeCount root
decreasing_by
  exact removeNode_decreasing root parentId _ _ _ _ children id k hp rfl hi

/-! ## `create_span` (`src/spawn.rs`) -/

/-- Append a child with the given weight at the end (`span.children.push`). -/
def childAppend : ChildList → Rat → Node → ChildList
  | .nil, w, n => .cons w n .nil
  | .cons s m rest, w, n => .cons s m (childAppend rest w n)

/-- The mutable multiplexer state `create_span` operates on: the active pane
id, the `span_id_counter`, and the root node. -/
structure SpawnState where
  activeId : Nat
  counter : Nat
  root : Option Node

/-- The sibling-append arm of `create_span`: push a new leaf onto the parent
span with weight equal to the average of the current sibling weights. -/
def appendLeaf (newId : Nat) (p : Node) : Node :=
  match p with
  | .void i => .void i
  | .span i d ch =>
    let avg := sumWeights ch / (ch.length : ℚ)
    .span i d (childAppend ch avg (.void newId))

/-- `create_span` from `src/spawn.rs`.  Returns the new state together with
the id of the freshly created pane.  The `f64` weight arithmetic of the
projected-size heuristic is modelled in `ℚ`. -/
def createSpan (st : SpawnState) (rootRect : Rect) : Except String (SpawnState × Nat) :=
  let activeId := st.activeId
  let newId := st.counter + 1
  let counter1 := st.counter + 1
  match st.root with
  | none => .ok ({ activeId := newId, counter := counter1, root := some (.void newId) }, newId)
  | some root =>
    match root with
    | .void _ =>
      let containerId := counter1 + 1
      let dir : SpanDirection :=
        if rootRect.size.x > rootRect.size.y then .horizontal else .vertical
      let newRoot : Node :=
        .span containerId dir (.cons 1 root (.cons 1 (.void newId) .nil))
      .ok ({ activeId := newId, counter := containerId, root := some newRoot }, newId)
    | .span _ _ _ =>
      match getSpanDimensions root activeId rootRect with
      | none => .error "Could not find active sizes"
      | some activeSizes =>
        match findById root activeId with
        | none => .error "Could not find active node with id"
        | some (_, path) =>
          match path.getLast? with
          | none => .error "Could not find parent node id"
          | some parentId =>
            match getSpanDimensions root parentId rootRect with
            | none => .error "Could not find parent sizes"
            | some parentSizes =>
              match findById root parentId with
              | none => .error "Could not find parent node"
              | some (parentClone, _) =>
                match parentClone with
                | .void _ => .error "Parent is void"
                | .span _ pdir children =>
                  let total := sumWeights children
                  let avg := total / (children.length : ℚ)
                  let newTotal := total + avg
                  let newShare := avg / newTotal
                  let nests : Bool :=
                    match pdir with
                    | .horizontal =>
                      decide ((activeSizes.size.y : ℚ) > (parentSizes.size.x : ℚ) * newShare)
                    | .vertical =>
                      decide ((activeSizes.size.x : ℚ) > (parentSizes.size.y : ℚ) * newShare)
                  if nests then
                    let containerId := counter1 + 1
                    match findById root activeId with
                    | none => .error "Could not find active node"
                    | some (activeNode, _) =>
                      let ndir : SpanDirection :=
                        match pdir with
                        | .horizontal => .vertical
                        | .vertical => .horizontal
                      let newSpan : Node :=
                        .span containerId ndir
                          (.cons 1 activeNode (.cons 1 (.void newId) .nil))
                      .ok ({ activeId := newId, counter := containerId,
                             root := some (mutateFirst root activeId (fun _ => newSpan)) },
                           newId)
                  else
                    match findById root parentId with
                    | none => .error "Could not find parent node"
                    | some (p2, _) =>
                      match p2 with
                      | .void _ => .error "Parent is not a span"
                      | .span _ _ _ =>
                        .ok ({ activeId := newId, counter := counter1,
                               root := some (mutateFirst root parentId (appendLeaf newId)) },
                             newId)

/-! ## Cells, styles and colors (`crates/renterm/src/{cell,style,color}.rs`;
the `src/canvas.rs` versions are structurally identical and share the model) -/

/-- `ColorEnum`: `Default | OneByte(u8) | Rgb(u8,u8,u8)`; `u8` modelled as
`Nat` (values stay below 256 in the program). -/
inductive ColorEnum where
  | colorDefault
  | oneByte (value : Nat)
  | rgb (r g b : Nat)
deriving DecidableEq, Repr

structure Color where
  color : ColorEnum
deriving DecidableEq, Repr

def Color.default : Color := ⟨.colorDefault⟩

def Color.newOneByte (byte : Nat) : Color := ⟨.oneByte byte⟩

def Color.newRgb (r g b : Nat) : Color := ⟨.rgb r g b⟩

structure Style where
  foregroundColor : Color
  backgroundColor : Color
  isBold : Bool
  isItalic : Bool
deriving DecidableEq, Repr

def Style.default : Style := ⟨Color.default, Color.default, false, false⟩

def Style.withBackgroundColor (s : Style) (c : Color) : Style :=
  { s with backgroundColor := c }

def Style.withForegroundColor (s : Style) (c : Color) : Style :=
  { s with foregroundColor := c }

/-- `Cell`: a grapheme string plus a style. -/
structure Cell where
  value : String
  style : Style
deriving DecidableEq, Repr

def Cell.default : Cell := ⟨" ", Style.default⟩

def Cell.newStyled (value : String) (style : Style) : Cell := ⟨value, style⟩

/-- `Cell::is_empty`: the value is a single space. -/
def Cell.isEmpty (c : Cell) : Bool := c.value = " "

/-! ## The renterm canvas and view (`crates/renterm/src/canvas.rs`, `view.rs`) -/

namespace Renterm

/-- `Canvas` from `crates/renterm/src/canvas.rs`: a flat row-major cell
vector and a size. -/
structure Canvas where
  cells : List Cell
  size : Vector2
deriving DecidableEq, Repr

/-- `Canvas::new_filled`: `vec![cell; abs(size.x * size.y)]`. -/
def Canvas.newFilled (size : Vector2) (cell : Cell) : Canvas :=
  ⟨List.replicate (size.x * size.y).natAbs cell, size⟩

/-- `Canvas::new`. -/
def Canvas.new (size : Vector2) : Canvas := Canvas.newFilled size Cell.default

/-- `Canvas::get_cell` (`Surface` impl): negative or too-large coordinates
yield the default cell. -/
def Canvas.getCell (c : Canvas) (position : Vector2) : Cell :=
  if position.x < 0 ∨ position.y < 0 then Cell.default
  else if position.x ≥ c.size.x ∨ position.y ≥ c.size.y then Cell.default
  else
    let index : Int := position.y * c.size.x + position.x
    if c.cells.length ≤ index.toNat then Cell.default
    else c.cells.getD index.toNat Cell.default

/-- `Canvas::set_cell`: out-of-bounds writes are dropped. -/
def Canvas.setCell (c : Canvas) (position : Vector2) (cell : Cell) : Canvas :=
  if position.x < 0 ∨ position.y < 0 then c
  else if position.x ≥ c.size.x ∨ position.y ≥ c.size.y then c
  else
    let index : Int := position.y * c.size.x + position.x
    if c.cells.length ≤ index.toNat then c
    else { c with cells := c.cells.set index.toNat cell }

/-- The body of the copy loop in `Canvas::set_size`: read the cell at
`(x, y)` of the old buffer and write it at `(x, y)` of the new canvas.  The
`index >= old_cells.len()` guard skips the read; a negative flat index models
the wrapped `usize` cast of the source (which always exceeds the buffer
length), so the copy is skipped there too. -/
def copyCellStep (oldCells : List Cell) (oldSizeX : Int) (y : Nat)
    (acc : Canvas) (x : Nat) : Canvas :=
  let index : Int := (y : Int) * oldSizeX + (x : Int)
  if index < 0 ∨ oldCells.length ≤ index.toNat then acc
  else acc.setCell ⟨(x : Int), (y : Int)⟩ (oldCells.getD index.toNat Cell.default)

/-- One row of the copy loop in `Canvas::set_size`. -/
def copyRowStep (oldCells : List Cell) (oldSizeX : Int) (xmax : Nat)
    (acc : Canvas) (y : Nat) : Canvas :=
  (List.range xmax).foldl (copyCellStep oldCells oldSizeX y) acc

/-- `Canvas::set_size`: unchanged when the size is equal; otherwise a fresh
default-filled buffer receives the overlapping top-left region of the old
content (loop bounds `abs(min(new, old))` per axis, exactly as in the
source). -/
def Canvas.setSize (c : Canvas) (size : Vector2) : Canvas :=
  if c.size = size then c
  else
    let base : Canvas := ⟨List.replicate (size.x * size.y).natAbs Cell.default, size⟩
    (List.range (Min.min size.y c.size.y).natAbs).foldl
      (copyRowStep c.cells c.size.x (Min.min size.x c.size.x).natAbs) base

/-- `Canvas::to_sub_view`: grow the canvas so the rect's bottom-right corner
fits, and return it with the clipping rect (the `SurfaceView`). -/
def Canvas.toSubView (c : Canvas) (rect : Rect) : Canvas × Rect :=
  (c.setSize (c.size.max rect.bottomRight), rect)

/-- A surface: either a `Canvas` or a `SurfaceView` wrapping a parent surface
with a clipping `Rect` (`crates/renterm/src/view.rs`); views may nest. -/
inductive Surf where
  | canvas (c : Canvas)
  | view (parent : Surf) (rect : Rect)

def Surf.size : Surf → Vector2
  | .canvas c => c.size
  | .view _ rect => rect.size

/-- `SurfaceView::is_position_in_rect`. -/
def inRect (rect : Rect) (position : Vector2) : Bool :=
  if position.x < 0 ∨ position.y < 0 then false
  else if position.x ≥ rect.size.x ∨ position.y ≥ rect.size.y then false
  else true

/-- `Surface::get_cell` through either implementation: view reads translate
by `rect.top_left()` after the bounds check. -/
def Surf.getCell : Surf → Vector2 → Cell
  | .canvas c, position => c.getCell position
  | .view parent rect, position =>
    if inRect rect position then parent.getCell (position + rect.topLeft)
    else Cell.default

/-- `Surface::set_cell` through either implementation. -/
def Surf.setCell : Surf → Vector2 → Cell → Surf
  | .canvas c, position, cell => .canvas (c.setCell position cell)
  | .view parent rect, position, cell =>
    if inRect rect position then .view (parent.setCell (position + rect.topLeft) cell) rect
    else .view parent rect

end Renterm

/-! ## The older canvas of `src/canvas.rs` (used by `src/draw.rs`) -/

namespace Mux

/-- `Canvas` from `src/canvas.rs` (`isize` scalars).  Unlike the renterm
canvas, `get_cell`/`set_cell` only guard against negative coordinates and a
flat index beyond the buffer — there is no per-axis upper-bound check. -/
structure Canvas where
  cells : List Cell
  size : Vector2
deriving DecidableEq, Repr

def Canvas.newFilled (size : Vector2) (cell : Cell) : Canvas :=
  ⟨List.replicate (size.x * size.y).natAbs cell, size⟩

def Canvas.new (size : Vector2) : Canvas := Canvas.newFilled size Cell.default

/-- `get_cell` from `src/canvas.rs`: negative components give the default
cell; the flat index is only checked against the buffer length.  A negative
flat index models the wrapped `usize` cast (beyond the buffer). -/
def Canvas.getCell (c : Canvas) (position : Vector2) : Cell :=
  if position.x < 0 ∨ position.y < 0 then Cell.default
  else
    let index : Int := position.y * c.size.x + position.x
    if index < 0 ∨ c.cells.length ≤ index.toNat then Cell.default
    else c.cells.getD index.toNat Cell.default

def Canvas.setCell (c : Canvas) (position : Vector2) (cell : Cell) : Canvas :=
  if position.x < 0 ∨ position.y < 0 then c
  else
    let index : Int := position.y * c.size.x + position.x
    if index < 0 ∨ c.cells.length ≤ index.toNat then c
    else { c with cells := c.cells.set index.toNat cell }

end Mux

/-! ## Escape sequences (`src/escape_codes.rs`) and style bytes
(`src/canvas.rs`).  `Vec<u8>` outputs are modelled as `String`s (every
sequence the renderer emits is built from a Rust string). -/

def moveCursorStr (y x : Int) : String :=
  "\x1b[" ++ toString (y + 1) ++ ";" ++ toString (x + 1) ++ "H"

def resetStyleStr : String := "\x1b[0m"

def cursorVisibilityStr (isVisible : Bool) : String :=
  if isVisible then "\x1b[?25h" else "\x1b[?25l"

/-- `EraseCharacter::new(count)`: an `isize` count converts through
`try_into().unwrap_or(0)`, so negative counts become `0`. -/
def eraseCharacterStr (count : Int) : String :=
  "\x1b[" ++ toString count.toNat ++ "X"

def cursorForwardStr (count : Int) : String :=
  "\x1b[" ++ toString count.toNat ++ "C"

inductive ColorType where
  | foreground
  | background

/-- `Color::to_vec` from `src/canvas.rs`. -/
def Color.toStr (c : Color) (colorType : ColorType) : String :=
  let pre : Nat := match colorType with
    | .foreground => 30
    | .background => 40
  let body : String := match c.color with
    | .colorDefault => toString (pre + 9)
    | .oneByte value =>
      if value ≤ 7 then toString (pre + value)
      else if 8 ≤ value ∧ value ≤ 15 then toString (60 + pre + value - 8)
      else toString (pre + 8) ++ ";5;" ++ toString value
    | .rgb r g b =>
      toString (pre + 8) ++ ";2;" ++ toString r ++ ";" ++ toString g ++ ";" ++ toString b
  "\x1b[" ++ body ++ "m"

/-- `impl Into<Vec<u8>> for Style`: background first, then foreground. -/
def Style.toStr (s : Style) : String :=
  s.backgroundColor.toStr .background ++ s.foregroundColor.toStr .foreground

/-! ## `find_span_dimensions` and the byte emission of `draw` (`src/draw.rs`) -/

mutual
/-- `find_span_dimensions` from `src/draw.rs` (the ceil/round/floor variant:
the last child is `ceil`ed, earlier children are `round`ed horizontally and
`floor`ed vertically).  `f64::round` (half away from zero) is modelled by
`round` on `ℚ` (half up), which agrees on the non-negative values the layout
produces. -/
def findSpanDimensions (node : Node) (spanId : Nat) (parentDims : Rect) : Option Rect :=
  if node.id = spanId then some parentDims
  else
    match node with
    | .void _ => none
    | .span _ dir children =>
      fsdChildren spanId dir children (sumWeights children) parentDims
        parentDims.position ⟨0, 0⟩
termination_by structural node

def fsdChildren (spanId : Nat) (dir : SpanDirection) (children : ChildList)
    (total : Rat) (parentDims : Rect) (lastPos lastSize : Vector2) : Option Rect :=
  match children with
  | .nil => none
  | .cons w n rest =>
    let isLast : Bool := match rest with
      | .nil => true
      | .cons _ _ _ => false
    let ratio := w / total
    let size : Vector2 :=
      if isLast then
        match dir with
        | .horizontal => ⟨⌈(parentDims.size.x : ℚ) * ratio⌉, parentDims.size.y⟩
        | .vertical => ⟨parentDims.size.x, ⌈(parentDims.size.y : ℚ) * ratio⌉⟩
      else
        match dir with
        | .horizontal => ⟨round ((parentDims.size.x : ℚ) * ratio), parentDims.size.y⟩
        | .vertical => ⟨parentDims.size.x, ⌊(parentDims.size.y : ℚ) * ratio⌋⟩
    let pos := nextPosition dir lastPos lastSize
    match findSpanDimensions n spanId ⟨pos, size⟩ with
    | some r => some r
    | none => fsdChildren spanId dir rest total parentDims pos size
termination_by structural children
end

/-- The per-pane state `draw` reads from the active process's terminal
emulator (an external collaborator): its span id, reported cursor position
and cursor-visibility flag. -/
structure ActiveInfo where
  spanId : Nat
  cursorPos : Vector2
  cursorVisible : Bool

/-- `(x : Int) | 0 ≤ x < n` as a list, the `for x in 0..n` range. -/
def intRange (n : Int) : List Int :=
  (List.range n.toNat).map (fun i => (i : Int))

/-- One iteration of the inner `for x` loop of `draw` (`src/draw.rs`,
lines 207–237).  State: the running `last_style`, `empty_count`, and the
output accumulator.  `is_empty_optimization_enabled` is the constant `false`
of the source, so the erase/cursor-forward branch is dead code. -/
def drawCellStep (canvas : Mux.Canvas) (y : Int) (st : Style × Int × String)
    (x : Int) : Style × Int × String :=
  let (lastStyle, emptyCount, out) := st
  let cell := canvas.getCell ⟨x, y⟩
  let hasNext : Bool := x + 1 < canvas.size.x
  let next := canvas.getCell ⟨x + 1, y⟩
  let isEmptyOptimizationEnabled : Bool := false
  if cell.isEmpty && isEmptyOptimizationEnabled then
    let (lastStyle, out) :=
      if emptyCount = 0 then
        if cell.style ≠ lastStyle then
          (cell.style, out ++ resetStyleStr ++ cell.style.toStr)
        else (cell.style, out)
      else (lastStyle, out)
    let emptyCount := emptyCount + 1
    if !hasNext || !next.isEmpty || next.style ≠ lastStyle then
      (lastStyle, 0,
        out ++ eraseCharacterStr emptyCount ++ cursorForwardStr emptyCount)
    else (lastStyle, emptyCount, out)
  else
    let (lastStyle, out) :=
      if cell.style ≠ lastStyle then
        (cell.style, out ++ resetStyleStr ++ cell.style.toStr ++ cell.value)
      else (lastStyle, out ++ cell.value)
    (lastStyle, emptyCount, out)

/-- One iteration of the `for y` row loop of `draw`: move the cursor to the
row start, scan the columns, and append a carriage return. -/
def drawRow (canvas : Mux.Canvas) (st : Style × String) (y : Int) : Style × String :=
  let out := st.2 ++ moveCursorStr y 0
  let res := (intRange canvas.size.x).foldl (drawCellStep canvas y) (st.1, 0, out)
  (res.1, res.2.2 ++ "\r")

/-- The diff section of `draw` (`src/draw.rs` lines 203–242): nothing when
the two canvases are equal, otherwise every row followed by a style reset. -/
def diffSection (lastCanvas newCanvas : Mux.Canvas) : String :=
  if lastCanvas ≠ newCanvas then
    ((intRange newCanvas.size.y).foldl (drawRow newCanvas) (Style.default, "")).2
      ++ resetStyleStr
  else ""

/-- The cursor-placement section of `draw` (lines 245–274): when an active
process exists, its cursor is visible, and its pane is found in the tree,
move the hardware cursor inside the pane's border and show it. -/
def cursorSection (size : Vector2) (root : Option Node) (active : Option ActiveInfo) :
    String :=
  match active with
  | none => ""
  | some info =>
    if info.cursorVisible then
      match root with
      | none => ""
      | some rootNode =>
        match findSpanDimensions rootNode info.spanId ⟨⟨0, 0⟩, size⟩ with
        | none => ""
        | some span =>
          let target := span.position + info.cursorPos + (⟨1, 1⟩ : Vector2)
          moveCursorStr target.y target.x ++ cursorVisibilityStr true
    else ""

/-- The complete byte stream of one `draw` call (`src/draw.rs` lines
195–277): a style reset and hide-cursor prelude, the diff section, and the
cursor-placement section. -/
def drawBytes (lastCanvas newCanvas : Mux.Canvas) (size : Vector2)
    (root : Option Node) (active : Option ActiveInfo) : String :=
  resetStyleStr ++ cursorVisibilityStr false
    ++ diffSection lastCanvas newCanvas
    ++ cursorSection size root active

/-! ## `TerminalInfo` size clamping (`src/term.rs`) -/

/-- `MIN_TERMINAL_SIZE` from `src/term.rs`. -/
def minTerminalSize : Vector2 := ⟨5, 5⟩

/-- The size state of `TerminalInfo` (`src/term.rs`); the wrapped `vt100`
parser is an external collaborator whose size always mirrors this field. -/
structure TerminalInfo where
  size : Vector2

/-- `TerminalInfo::new`: the stored size is clamped below by `(5,5)`. -/
def TerminalInfo.new (size : Vector2) : TerminalInfo :=
  ⟨size.max minTerminalSize⟩

/-- `TerminalInfo::set_size`: clamp, then store (the equal-size early return
leaves the same state). -/
def TerminalInfo.setSize (t : TerminalInfo) (size : Vector2) : TerminalInfo :=
  let size := size.max minTerminalSize
  if t.size = size then t else ⟨size⟩

/-! # Theorems -/

/-- C9: `TerminalInfo::new` and `TerminalInfo::set_size` store the
componentwise maximum of the requested size and `(5,5)`, so the emulator size
always satisfies `x ≥ 5` and `y ≥ 5`, whatever size is requested. -/
theorem c9_terminal_size_clamped (s : Vector2) (t : TerminalInfo) :
    (TerminalInfo.new s).size = s.max minTerminalSize
    ∧ (t.setSize s).size = s.max minTerminalSize
    ∧ 5 ≤ (TerminalInfo.new s).size.x ∧ 5 ≤ (TerminalInfo.new s).size.y
    ∧ 5 ≤ (t.setSize s).size.x ∧ 5 ≤ (t.setSize s).size.y := by
  have h1 : (TerminalInfo.new s).size = s.max minTerminalSize := rfl
  have h2 : (t.setSize s).size = s.max minTerminalSize := by
    unfold TerminalInfo.setSize
    by_cases h : t.size = s.max minTerminalSize
    · simp [h]
    · simp [h]
  refine ⟨h1, h2, ?_, ?_, ?_, ?_⟩
  · rw [h1]
    exact le_max_right s.x 5
  · rw [h1]
    exact le_max_right s.y 5
  · rw [h2]
    exact le_max_right s.x 5
  · rw [h2]
    exact le_max_right s.y 5

/-- C7: on any surface — a `Canvas` or a (possibly nested) `SurfaceView` —
reading a position outside the bounds (negative, or at/beyond the size on
either axis) returns the default cell, and writing there is a no-op leaving
the surface unchanged; no access panics. -/
theorem c7_surface_out_of_bounds (s : Renterm.Surf) (pos : Vector2) (cell : Cell)
    (h : pos.x < 0 ∨ pos.y < 0 ∨ s.size.x ≤ pos.x ∨ s.size.y ≤ pos.y) :
    s.getCell pos = Cell.default ∧ s.setCell pos cell = s := by
  cases s with
  | canvas c =>
    simp only [Renterm.Surf.size] at h
    by_cases h1 : pos.x < 0 ∨ pos.y < 0
    · constructor
      · simp [Renterm.Surf.getCell, Renterm.Canvas.getCell, h1]
      · simp [Renterm.Surf.setCell, Renterm.Canvas.setCell, h1]
    · have h2 : pos.x ≥ c.size.x ∨ pos.y ≥ c.size.y := by
        rcases h with h | h | h | h
        · exact absurd (Or.inl h) h1
        · exact absurd (Or.inr h) h1
        · exact Or.inl h
        · exact Or.inr h
      constructor
      · simp [Renterm.Surf.getCell, Renterm.Canvas.getCell, h1, h2]
      · simp [Renterm.Surf.setCell, Renterm.Canvas.setCell, h1, h2]
  | view parent rect =>
    simp only [Renterm.Surf.size] at h
    have hr : Renterm.inRect rect pos = false := by
      unfold Renterm.inRect
      by_cases h1 : pos.x < 0 ∨ pos.y < 0
      · simp [h1]
      · have h2 : pos.x ≥ rect.size.x ∨ pos.y ≥ rect.size.y := by
          rcases h with h | h | h | h
          · exact absurd (Or.inl h) h1
          · exact absurd (Or.inr h) h1
          · exact Or.inl h
          · exact Or.inr h
        simp [h1, h2]
    constructor
    · simp [Renterm.Surf.getCell, hr]
    · simp [Renterm.Surf.setCell, hr]

/-- Witness for C7 at concrete inputs: a 2×2 canvas with a negative read, and
a view of it with a read at the size, both out of bounds. -/
theorem c7_surface_out_of_bounds_witness :
    ((-1 : Int) < 0 ∨ (0 : Int) < 0
        ∨ (Renterm.Surf.canvas (Renterm.Canvas.new ⟨2, 2⟩)).size.x ≤ -1
        ∨ (Renterm.Surf.canvas (Renterm.Canvas.new ⟨2, 2⟩)).size.y ≤ 0)
    ∧ (Renterm.Surf.canvas (Renterm.Canvas.new ⟨2, 2⟩)).getCell ⟨-1, 0⟩ = Cell.default
    ∧ (Renterm.Surf.canvas (Renterm.Canvas.new ⟨2, 2⟩)).setCell ⟨-1, 0⟩
        (Cell.newStyled "A" Style.default)
      = .canvas (Renterm.Canvas.new ⟨2, 2⟩) := by
  refine ⟨by decide, ?_⟩
  have := c7_surface_out_of_bounds (.canvas (Renterm.Canvas.new ⟨2, 2⟩)) ⟨-1, 0⟩
    (Cell.newStyled "A" Style.default) (by decide)
  exact this

/-- C10: `remove_node` hands back the parent's last remaining child id
without checking that it is a leaf: in this concrete tree, removing pane 4
makes the new active id `1`, which is the id of a `Span` (split container)
node, not of a pane. -/
theorem c10_remove_returns_span_id :
    removeNode
      (.span 0 .horizontal
        (.cons 1 (.span 1 .vertical (.cons 1 (.void 2) (.cons 1 (.void 3) .nil)))
          (.cons 1 (.void 4) .nil))) 4
      = .ok (.span 0 .horizontal
          (.cons 1 (.span 1 .vertical (.cons 1 (.void 2) (.cons 1 (.void 3) .nil)))
            .nil),
          some 1)
    ∧ nodeAtPath
        (.span 0 .horizontal
          (.cons 1 (.span 1 .vertical (.cons 1 (.void 2) (.cons 1 (.void 3) .nil)))
            (.cons 1 (.void 4) .nil))) [0]
      = some (.span 1 .vertical (.cons 1 (.void 2) (.cons 1 (.void 3) .nil))) := by
  constructor
  · rw [removeNode.eq_def]
    rfl
  · rfl

/-- The all-space 8×8 previous frame of the diff scenario. -/
def scenarioLastCanvas : Mux.Canvas := Mux.Canvas.new ⟨8, 8⟩

/-- The 8×8 frame whose only non-default cell is `'A'` at `(0,0)`. -/
def scenarioNewCanvas : Mux.Canvas :=
  (Mux.Canvas.new ⟨8, 8⟩).setCell ⟨0, 0⟩ (Cell.newStyled "A" Style.default)

/-- C5 counterexample: rendering the very same frame twice does *not* emit
zero bytes — even with equal frames, `draw` unconditionally emits the
style-reset and hide-cursor prelude before the equality check. -/
theorem c5_equal_frames_emit_prelude :
    drawBytes scenarioLastCanvas scenarioLastCanvas ⟨8, 8⟩ none none
      = "\x1b[0m\x1b[?25l"
    ∧ drawBytes scenarioLastCanvas scenarioLastCanvas ⟨8, 8⟩ none none ≠ "" := by
  have h1 : drawBytes scenarioLastCanvas scenarioLastCanvas ⟨8, 8⟩ none none
      = "\x1b[0m\x1b[?25l" := rfl
  exact ⟨h1, by rw [h1]; decide⟩

/-- C5 amended: when the new frame is structurally equal to the previously
rendered frame, the *diff section* emits zero bytes — the whole output is
exactly the constant style-reset/hide-cursor prelude followed by the
cursor-placement bytes, independent of the frame contents. -/
theorem c5_equal_frames_skip_diff (lastCanvas newCanvas : Mux.Canvas)
    (size : Vector2) (root : Option Node) (active : Option ActiveInfo)
    (h : lastCanvas = newCanvas) :
    drawBytes lastCanvas newCanvas size root active
      = resetStyleStr ++ cursorVisibilityStr false ++ cursorSection size root active
    ∧ diffSection lastCanvas newCanvas = "" := by
  subst h
  have hd : diffSection lastCanvas lastCanvas = "" := by
    simp [diffSection]
  constructor
  · simp [drawBytes, hd]
  · exact hd

set_option maxRecDepth 400000 in
/-- Witness for C5 amended at a concrete input: equal 8×8 frames produce
exactly the prelude. -/
theorem c5_equal_frames_skip_diff_witness :
    scenarioLastCanvas = scenarioLastCanvas
    ∧ drawBytes scenarioLastCanvas scenarioLastCanvas ⟨8, 8⟩ none none
        = resetStyleStr ++ cursorVisibilityStr false ++ cursorSection ⟨8, 8⟩ none none
    ∧ diffSection scenarioLastCanvas scenarioLastCanvas = "" :=
  ⟨rfl,
    (c5_equal_frames_skip_diff scenarioLastCanvas scenarioLastCanvas ⟨8, 8⟩ none none rfl).1,
    (c5_equal_frames_skip_diff scenarioLastCanvas scenarioLastCanvas ⟨8, 8⟩ none none rfl).2⟩

set_option maxRecDepth 400000 in
/-- C6 counterexample: the frames differ, but the diff emits *no*
erase-7/cursor-forward-7 pair anywhere in the stream — the empty-run
optimization is disabled by the constant `is_empty_optimization_enabled =
false`, so runs of blanks are written as literal spaces. -/
theorem c6_no_erase_forward_emitted :
    scenarioLastCanvas ≠ scenarioNewCanvas
    ∧ ¬ ("\x1b[7X".toList <:+:
          (drawBytes scenarioLastCanvas scenarioNewCanvas ⟨8, 8⟩ none none).toList)
    ∧ ¬ ("\x1b[7C".toList <:+:
          (drawBytes scenarioLastCanvas scenarioNewCanvas ⟨8, 8⟩ none none).toList) := by
  refine ⟨by decide, by decide, by decide⟩

set_option maxRecDepth 400000 in
/-- C6 amended: with the run compression disabled, diffing the `'A'`-at-(0,0)
frame against the all-space frame emits, per row, a cursor move followed by
the literal cell contents — `'A'` then seven spaces on row 0, eight spaces on
every other row — with a final style reset, instead of erase/cursor-forward
pairs. -/
theorem c6_scenario_writes_spaces :
    drawBytes scenarioLastCanvas scenarioNewCanvas ⟨8, 8⟩ none none =
      "\x1b[0m\x1b[?25l"
      ++ "\x1b[1;1HA       \r"
      ++ "\x1b[2;1H        \r"
      ++ "\x1b[3;1H        \r"
      ++ "\x1b[4;1H        \r"
      ++ "\x1b[5;1H        \r"
      ++ "\x1b[6;1H        \r"
      ++ "\x1b[7;1H        \r"
      ++ "\x1b[8;1H        \r"
      ++ "\x1b[0m" := by
  rfl

/-! ## The pane-creation scenario (C3) -/

/-- The 80×24 root rectangle of the creation scenario
(`get_root_dimensions` builds `Rect::new((0,0), size)`). -/
def scenarioRootRect : Rect := Rect.new ⟨0, 0⟩ ⟨80, 24⟩

/-- The tree after creating panes A (id 1) and B (id 2): a horizontal span
(id 3) with two equal-weight children. -/
def scenarioRootAB : Node :=
  .span 3 .horizontal (.cons 1 (.void 1) (.cons 1 (.void 2) .nil))

/-- The tree after creating pane C (id 4) while B is active: C is appended
as a third equal-weight sibling. -/
def scenarioRootABC : Node :=
  .span 3 .horizontal
    (.cons 1 (.void 1) (.cons 1 (.void 2) (.cons 1 (.void 4) .nil)))

theorem scenario_distributedSizes_AB :
    distributedSizes .horizontal scenarioRootRect
      (.cons 1 (.void 1) (.cons 1 (.void 2) .nil)) = [⟨40, 24⟩, ⟨40, 24⟩] := by
  norm_num [distributedSizes, baseSizes, baseSize, sumWeights, weightsList,
    scenarioRootRect, Rect.new, Vector2.max, Vector2.null, distLoopX]

theorem scenario_distributedSizes_ABC :
    distributedSizes .horizontal scenarioRootRect
      (.cons 1 (.void 1) (.cons 1 (.void 2) (.cons 1 (.void 4) .nil)))
      = [⟨27, 24⟩, ⟨27, 24⟩, ⟨26, 24⟩] := by
  norm_num [distributedSizes, baseSizes, baseSize, sumWeights, weightsList,
    scenarioRootRect, Rect.new, Vector2.max, Vector2.null, distLoopX, incFirstX, minX]

theorem scenario_A_rect_in_AB :
    getSpanDimensions scenarioRootAB 1 scenarioRootRect
      = some ⟨⟨0, 0⟩, ⟨40, 24⟩⟩ := by
  rw [scenarioRootAB, getSpanDimensions.eq_def]
  simp only [Node.id]
  rw [if_neg (by decide : ¬ ((3:Nat) = 1))]
  rw [scenario_distributedSizes_AB]
  rfl

theorem scenario_B_rect_in_AB :
    getSpanDimensions scenarioRootAB 2 scenarioRootRect
      = some ⟨⟨40, 0⟩, ⟨40, 24⟩⟩ := by
  rw [scenarioRootAB, getSpanDimensions.eq_def]
  simp only [Node.id]
  rw [if_neg (by decide : ¬ ((3:Nat) = 2))]
  rw [scenario_distributedSizes_AB]
  rfl

theorem scenario_parent_rect_in_AB :
    getSpanDimensions scenarioRootAB 3 scenarioRootRect = some scenarioRootRect := by
  rw [scenarioRootAB, getSpanDimensions.eq_def]
  simp [Node.id]

/-- The third `create_span` call of the scenario: pane C is appended as a
third equal-weight sibling of the horizontal span (the projected new width
`80/3 ≈ 26.7` is not smaller than B's height `24`, so the nesting branch is
not taken); no nested vertical span is created. -/
theorem scenario_step3 :
    createSpan ⟨2, 3, some scenarioRootAB⟩ scenarioRootRect
      = .ok (⟨4, 4, some scenarioRootABC⟩, 4) := by
  have hfb : findById scenarioRootAB 2 = some (.void 2, [3]) := rfl
  have hfb3 : findById scenarioRootAB 3 = some (scenarioRootAB, []) := rfl
  have hgl : ([3] : List Nat).getLast? = some 3 := rfl
  have hmf : mutateFirst scenarioRootAB 3 (appendLeaf 4)
      = Node.span 3 .horizontal
          (.cons 1 (.void 1) (.cons 1 (.void 2)
            (.cons (sumWeights (.cons 1 (.void 1) (.cons 1 (.void 2) .nil))
                / ((ChildList.length (.cons 1 (.void 1) (.cons 1 (.void 2) .nil)) : Nat) : ℚ))
              (.void 4) .nil))) := by
    rw [scenarioRootAB, mutateFirst.eq_def]
    simp [Node.id, appendLeaf, childAppend]
  have hw : sumWeights (.cons 1 (.void 1) (.cons 1 (.void 2) .nil))
      / ((ChildList.length (.cons 1 (.void 1) (.cons 1 (.void 2) .nil)) : Nat) : ℚ) = 1 := by
    norm_num [sumWeights, weightsList, ChildList.length]
  rw [show scenarioRootAB = .span 3 .horizontal (.cons 1 (.void 1) (.cons 1 (.void 2) .nil))
    from rfl] at hfb hfb3 hmf
  simp only [createSpan, scenarioRootAB, hfb, hfb3, hgl,
    show getSpanDimensions (.span 3 .horizontal (.cons 1 (.void 1) (.cons 1 (.void 2) .nil)))
        2 scenarioRootRect = some ⟨⟨40, 0⟩, ⟨40, 24⟩⟩ from scenario_B_rect_in_AB,
    show getSpanDimensions (.span 3 .horizontal (.cons 1 (.void 1) (.cons 1 (.void 2) .nil)))
        3 scenarioRootRect = some scenarioRootRect from scenario_parent_rect_in_AB]
  norm_num [sumWeights, weightsList, ChildList.length]
  rw [hmf, hw]
  norm_num [scenarioRootRect, scenarioRootABC, Rect.new, Vector2.max, Vector2.null]

theorem scenario_A_rect_in_ABC :
    getSpanDimensions scenarioRootABC 1 scenarioRootRect
      = some ⟨⟨0, 0⟩, ⟨27, 24⟩⟩ := by
  rw [scenarioRootABC, getSpanDimensions.eq_def]
  simp only [Node.id]
  rw [if_neg (by decide : ¬ ((3:Nat) = 1))]
  rw [scenario_distributedSizes_ABC]
  rfl

theorem scenario_B_rect_in_ABC :
    getSpanDimensions scenarioRootABC 2 scenarioRootRect
      = some ⟨⟨27, 0⟩, ⟨27, 24⟩⟩ := by
  rw [scenarioRootABC, getSpanDimensions.eq_def]
  simp only [Node.id]
  rw [if_neg (by decide : ¬ ((3:Nat) = 2))]
  rw [scenario_distributedSizes_ABC]
  rfl

theorem scenario_C_rect_in_ABC :
    getSpanDimensions scenarioRootABC 4 scenarioRootRect
      = some ⟨⟨54, 0⟩, ⟨26, 24⟩⟩ := by
  rw [scenarioRootABC, getSpanDimensions.eq_def]
  simp only [Node.id]
  rw [if_neg (by decide : ¬ ((3:Nat) = 4))]
  rw [scenario_distributedSizes_ABC]
  rfl

/-- C3 counterexample: with B (rect 40×24) active on the 80×24 root, the
third `create_span` call *appends* C as a third sibling of the horizontal
span — B's slot (child index 1) still holds the leaf `Void 2` afterwards —
rather than replacing B's slot with a nested `Vertical` span of B above C. -/
theorem c3_third_pane_is_appended :
    createSpan ⟨2, 3, some scenarioRootAB⟩ scenarioRootRect
      = .ok (⟨4, 4, some scenarioRootABC⟩, 4)
    ∧ nodeAtPath scenarioRootABC [1] = some (.void 2)
    ∧ nodeAtPath scenarioRootABC [2] = some (.void 4) := by
  exact ⟨scenario_step3, rfl, rfl⟩

/-- C3 amended: creating A makes it the root leaf; creating B while A is
active splits the 80×24 root into a `Horizontal` span with two equal-weight
40×24 children; but creating C while B is active *appends* C as a third
equal-weight sibling (panes 27/27/26 wide), because the projected width
`80/3` of the would-be sibling is not smaller than B's height 24 — the
nesting branch fires only when the active pane's height exceeds that
projection. -/
theorem c3_scenario_appends_third_sibling :
    createSpan ⟨0, 0, none⟩ scenarioRootRect = .ok (⟨1, 1, some (.void 1)⟩, 1)
    ∧ createSpan ⟨1, 1, some (.void 1)⟩ scenarioRootRect
        = .ok (⟨2, 3, some scenarioRootAB⟩, 2)
    ∧ getSpanDimensions scenarioRootAB 1 scenarioRootRect = some ⟨⟨0, 0⟩, ⟨40, 24⟩⟩
    ∧ getSpanDimensions scenarioRootAB 2 scenarioRootRect = some ⟨⟨40, 0⟩, ⟨40, 24⟩⟩
    ∧ ¬ ((24 : ℚ) > (80 : ℚ) * ((1 : ℚ) / 3))
    ∧ createSpan ⟨2, 3, some scenarioRootAB⟩ scenarioRootRect
        = .ok (⟨4, 4, some scenarioRootABC⟩, 4)
    ∧ getSpanDimensions scenarioRootABC 1 scenarioRootRect = some ⟨⟨0, 0⟩, ⟨27, 24⟩⟩
    ∧ getSpanDimensions scenarioRootABC 2 scenarioRootRect = some ⟨⟨27, 0⟩, ⟨27, 24⟩⟩
    ∧ getSpanDimensions scenarioRootABC 4 scenarioRootRect = some ⟨⟨54, 0⟩, ⟨26, 24⟩⟩ := by
  refine ⟨rfl, rfl, scenario_A_rect_in_AB, scenario_B_rect_in_AB, by norm_num,
    scenario_step3, scenario_A_rect_in_ABC, scenario_B_rect_in_ABC, scenario_C_rect_in_ABC⟩

/-! ## Arithmetic of the remainder-distribution loop (towards C2 and C1) -/

theorem foldl_sub_x (l : List Vector2) (p : Vector2) :
    (l.foldl (fun r s => r - s) p).x = p.x - (l.map (·.x)).sum := by
  induction l generalizing p with
  | nil => simp
  | cons h t ih =>
    rw [List.foldl_cons, ih]
    simp only [List.map_cons, List.sum_cons, Vector2.sub_def]
    ring

theorem foldl_sub_y (l : List Vector2) (p : Vector2) :
    (l.foldl (fun r s => r - s) p).y = p.y - (l.map (·.y)).sum := by
  induction l generalizing p with
  | nil => simp
  | cons h t ih =>
    rw [List.foldl_cons, ih]
    simp only [List.map_cons, List.sum_cons, Vector2.sub_def]
    ring

theorem floor_shares_sum_le_q (e : Int) (T : ℚ) (ws : List ℚ) :
    ((ws.map (fun w => ⌊(e : ℚ) * (w / T)⌋)).sum : ℚ) ≤ (e : ℚ) * (ws.sum / T) := by
  induction ws with
  | nil => simp
  | cons w t ih =>
    simp only [List.map_cons, List.sum_cons]
    rw [Int.cast_add, add_div, mul_add]
    exact add_le_add (Int.floor_le _) ih

theorem floor_shares_sum_le (e : Int) (T : ℚ) (ws : List ℚ)
    (hT : ws.sum = T) (hT0 : T ≠ 0) :
    (ws.map (fun w => ⌊(e : ℚ) * (w / T)⌋)).sum ≤ e := by
  have key := floor_shares_sum_le_q e T ws
  rw [hT, div_self hT0, mul_one] at key
  exact_mod_cast key

theorem incFirstX_length (m : Int) (l : List Vector2) :
    (incFirstX m l).length = l.length := by
  induction l with
  | nil => rfl
  | cons v t ih =>
    by_cases h : v.x = m <;> simp [incFirstX, h, ih]

theorem incFirstY_length (m : Int) (l : List Vector2) :
    (incFirstY m l).length = l.length := by
  induction l with
  | nil => rfl
  | cons v t ih =>
    by_cases h : v.y = m <;> simp [incFirstY, h, ih]

theorem foldl_min_attained (f : Vector2 → Int) :
    ∀ (t : List Vector2) (a : Int),
      t.foldl (fun acc u => Min.min acc (f u)) a = a
      ∨ ∃ v ∈ t, t.foldl (fun acc u => Min.min acc (f u)) a = f v := by
  intro t
  induction t with
  | nil => intro a; left; rfl
  | cons u t ih =>
    intro a
    rcases ih (Min.min a (f u)) with h | ⟨v, hv, h⟩
    · simp only [List.foldl_cons] at *
      rcases le_total a (f u) with hle | hle
      · left; rw [h]; exact min_eq_left hle
      · right; exact ⟨u, List.mem_cons_self u t, by rw [h]; exact min_eq_right hle⟩
    · right
      exact ⟨v, List.mem_cons_of_mem u hv, by simpa using h⟩

theorem minX_attained (l : List Vector2) (hne : l ≠ []) :
    ∃ v ∈ l, v.x = minX l := by
  cases l with
  | nil => exact absurd rfl hne
  | cons v t =>
    rcases foldl_min_attained (·.x) t v.x with h | ⟨u, hu, h⟩
    · exact ⟨v, List.mem_cons_self v t, by simp [minX, h]⟩
    · exact ⟨u, List.mem_cons_of_mem v hu, by simp [minX, h]⟩

theorem minY_attained (l : List Vector2) (hne : l ≠ []) :
    ∃ v ∈ l, v.y = minY l := by
  cases l with
  | nil => exact absurd rfl hne
  | cons v t =>
    rcases foldl_min_attained (·.y) t v.y with h | ⟨u, hu, h⟩
    · exact ⟨v, List.mem_cons_self v t, by simp [minY, h]⟩
    · exact ⟨u, List.mem_cons_of_mem v hu, by simp [minY, h]⟩

theorem incFirstX_sum (m : Int) (l : List Vector2) (hex : ∃ v ∈ l, v.x = m) :
    ((incFirstX m l).map (·.x)).sum = (l.map (·.x)).sum + 1 := by
  induction l with
  | nil => simp at hex
  | cons v t ih =>
    by_cases h : v.x = m
    · simp [incFirstX, h]
      ring
    · obtain ⟨u, hu, hux⟩ := hex
      rcases List.mem_cons.mp hu with rfl | hu
      · exact absurd hux h
      · simp [incFirstX, h, ih ⟨u, hu, hux⟩]
        ring

theorem incFirstY_sum (m : Int) (l : List Vector2) (hex : ∃ v ∈ l, v.y = m) :
    ((incFirstY m l).map (·.y)).sum = (l.map (·.y)).sum + 1 := by
  induction l with
  | nil => simp at hex
  | cons v t ih =>
    by_cases h : v.y = m
    · simp [incFirstY, h]
      ring
    · obtain ⟨u, hu, huy⟩ := hex
      rcases List.mem_cons.mp hu with rfl | hu
      · exact absurd huy h
      · simp [incFirstY, h, ih ⟨u, hu, huy⟩]
        ring

theorem distLoopX_sum : ∀ (n : Nat) (l : List Vector2), l ≠ [] →
    ((distLoopX n l).map (·.x)).sum = (l.map (·.x)).sum + n := by
  intro n
  induction n with
  | zero => intro l _; simp [distLoopX]
  | succ n ih =>
    intro l hne
    have hie : l.isEmpty = false := by
      cases l with
      | nil => exact absurd rfl hne
      | cons v t => rfl
    have hex := minX_attained l hne
    have hne' : incFirstX (minX l) l ≠ [] := by
      intro h
      have := incFirstX_length (minX l) l
      rw [h] at this
      cases l with
      | nil => exact hne rfl
      | cons v t => simp [ChildList.length] at this
    rw [distLoopX, hie]
    simp only [Bool.false_eq_true, if_false]
    rw [ih _ hne', incFirstX_sum (minX l) l hex]
    push_cast
    ring

theorem distLoopY_sum : ∀ (n : Nat) (l : List Vector2), l ≠ [] →
    ((distLoopY n l).map (·.y)).sum = (l.map (·.y)).sum + n := by
  intro n
  induction n with
  | zero => intro l _; simp [distLoopY]
  | succ n ih =>
    intro l hne
    have hie : l.isEmpty = false := by
      cases l with
      | nil => exact absurd rfl hne
      | cons v t => rfl
    have hex := minY_attained l hne
    have hne' : incFirstY (minY l) l ≠ [] := by
      intro h
      have := incFirstY_length (minY l) l
      rw [h] at this
      cases l with
      | nil => exact hne rfl
      | cons v t => simp [ChildList.length] at this
    rw [distLoopY, hie]
    simp only [Bool.false_eq_true, if_false]
    rw [ih _ hne', incFirstY_sum (minY l) l hex]
    push_cast
    ring

theorem weightsList_sum_pos (children : ChildList)
    (hne : weightsList children ≠ [])
    (hpos : ∀ w ∈ weightsList children, 0 < w) :
    0 < sumWeights children :=
  List.sum_pos _ hpos hne

/-- The span-axis extent of a vector. -/
def axisExtent (dir : SpanDirection) (v : Vector2) : Int :=
  match dir with
  | .horizontal => v.x
  | .vertical => v.y

theorem distributedSizes_sum_x (parentDims : Rect) (children : ChildList)
    (hne : weightsList children ≠ [])
    (hpos : ∀ w ∈ weightsList children, 0 < w) :
    ((distributedSizes .horizontal parentDims children).map (·.x)).sum
      = parentDims.size.x := by
  have hTpos := weightsList_sum_pos children hne hpos
  have hsx : (baseSizes .horizontal parentDims.size (sumWeights children)
        (weightsList children)).map (·.x)
      = (weightsList children).map
          (fun w => ⌊(parentDims.size.x : ℚ) * (w / sumWeights children)⌋) := by
    simp only [baseSizes, List.map_map]
    rfl
  have hS_le : ((weightsList children).map
        (fun w => ⌊(parentDims.size.x : ℚ) * (w / sumWeights children)⌋)).sum
      ≤ parentDims.size.x :=
    floor_shares_sum_le _ _ _ rfl (ne_of_gt hTpos)
  have hbne : baseSizes .horizontal parentDims.size (sumWeights children)
      (weightsList children) ≠ [] := by
    simp [baseSizes]
    exact hne
  have hrx : ((baseSizes .horizontal parentDims.size (sumWeights children)
        (weightsList children)).foldl (fun r s => r - s) parentDims.size).x
      = parentDims.size.x
        - ((weightsList children).map
            (fun w => ⌊(parentDims.size.x : ℚ) * (w / sumWeights children)⌋)).sum := by
    rw [foldl_sub_x, hsx]
  rw [distributedSizes]
  rw [distLoopX_sum _ _ hbne, hsx, hrx]
  rw [Int.toNat_of_nonneg (by omega)]
  omega

theorem distributedSizes_sum_y (parentDims : Rect) (children : ChildList)
    (hne : weightsList children ≠ [])
    (hpos : ∀ w ∈ weightsList children, 0 < w) :
    ((distributedSizes .vertical parentDims children).map (·.y)).sum
      = parentDims.size.y := by
  have hTpos := weightsList_sum_pos children hne hpos
  have hsy : (baseSizes .vertical parentDims.size (sumWeights children)
        (weightsList children)).map (·.y)
      = (weightsList children).map
          (fun w => ⌊(parentDims.size.y : ℚ) * (w / sumWeights children)⌋) := by
    simp only [baseSizes, List.map_map]
    rfl
  have hS_le : ((weightsList children).map
        (fun w => ⌊(parentDims.size.y : ℚ) * (w / sumWeights children)⌋)).sum
      ≤ parentDims.size.y :=
    floor_shares_sum_le _ _ _ rfl (ne_of_gt hTpos)
  have hbne : baseSizes .vertical parentDims.size (sumWeights children)
      (weightsList children) ≠ [] := by
    simp [baseSizes]
    exact hne
  have hry : ((baseSizes .vertical parentDims.size (sumWeights children)
        (weightsList children)).foldl (fun r s => r - s) parentDims.size).y
      = parentDims.size.y
        - ((weightsList children).map
            (fun w => ⌊(parentDims.size.y : ℚ) * (w / sumWeights children)⌋)).sum := by
    rw [foldl_sub_y, hsy]
  rw [distributedSizes]
  rw [distLoopY_sum _ _ hbne, hsy, hry]
  rw [Int.toNat_of_nonneg (by omega)]
  omega

theorem weightsList_ne_nil (children : ChildList) (hne : children ≠ .nil) :
    weightsList children ≠ [] := by
  cases children with
  | nil => exact absurd rfl hne
  | cons w n rest => simp [weightsList]

/-- C2: for a span with at least one child, positive weights, and a
non-negative parent rectangle, the child extents computed by
`get_span_dimensions` along the span's axis (floor shares, then one unit at a
time to the currently-smallest child) sum exactly to the parent extent on
that axis — no rounding drift. -/
theorem c2_extents_sum_exact (dir : SpanDirection) (parentDims : Rect)
    (children : ChildList)
    (hne : children ≠ .nil)
    (hpos : ∀ w ∈ weightsList children, 0 < w)
    (hx : 0 ≤ parentDims.size.x) (hy : 0 ≤ parentDims.size.y) :
    ((distributedSizes dir parentDims children).map (axisExtent dir)).sum
      = axisExtent dir parentDims.size := by
  have hw := weightsList_ne_nil children hne
  cases dir with
  | horizontal =>
    have := distributedSizes_sum_x parentDims children hw hpos
    simpa [axisExtent] using this
  | vertical =>
    have := distributedSizes_sum_y parentDims children hw hpos
    simpa [axisExtent] using this

/-- Witness for C2 at a concrete input: a three-way split of the 80×24
rectangle, each child with weight 1, sums back to 80. -/
theorem c2_extents_sum_exact_witness :
    ((.cons 1 (.void 1) (.cons 1 (.void 2) (.cons 1 (.void 4) .nil)) : ChildList) ≠ .nil
      ∧ (∀ w ∈ weightsList
          (.cons 1 (.void 1) (.cons 1 (.void 2) (.cons 1 (.void 4) .nil)) : ChildList),
            0 < w)
      ∧ 0 ≤ (Rect.new ⟨0, 0⟩ ⟨80, 24⟩).size.x ∧ 0 ≤ (Rect.new ⟨0, 0⟩ ⟨80, 24⟩).size.y)
    ∧ ((distributedSizes .horizontal (Rect.new ⟨0, 0⟩ ⟨80, 24⟩)
          (.cons 1 (.void 1) (.cons 1 (.void 2) (.cons 1 (.void 4) .nil)))).map
            (axisExtent .horizontal)).sum
        = axisExtent .horizontal (Rect.new ⟨0, 0⟩ ⟨80, 24⟩).size := by
  have h1 : (ChildList.cons 1 (.void 1)
      (.cons 1 (.void 2) (.cons 1 (.void 4) .nil)) : ChildList) ≠ .nil := by
    intro h
    exact ChildList.noConfusion h
  have h2 : ∀ w ∈ weightsList
      (.cons 1 (.void 1) (.cons 1 (.void 2) (.cons 1 (.void 4) .nil)) : ChildList),
        0 < w := by decide
  have h3 : (0 : Int) ≤ (Rect.new ⟨0, 0⟩ ⟨80, 24⟩).size.x := by decide
  have h4 : (0 : Int) ≤ (Rect.new ⟨0, 0⟩ ⟨80, 24⟩).size.y := by decide
  exact ⟨⟨h1, h2, h3, h4⟩,
    c2_extents_sum_exact .horizontal (Rect.new ⟨0, 0⟩ ⟨80, 24⟩) _ h1 h2 h3 h4⟩

/-! ## Layout partition (C1) -/

/-- The cross-axis extent of a vector (the axis a span does not divide). -/
def crossExtent (dir : SpanDirection) (v : Vector2) : Int :=
  match dir with
  | .horizontal => v.y
  | .vertical => v.x

theorem weightsList_length : ∀ (c : ChildList), (weightsList c).length = c.length
  | .nil => rfl
  | .cons _ _ rest => by
    simp [weightsList, ChildList.length, weightsList_length rest]
    omega

theorem incFirstX_map_y (m : Int) (l : List Vector2) :
    (incFirstX m l).map (·.y) = l.map (·.y) := by
  induction l with
  | nil => rfl
  | cons v t ih =>
    by_cases h : v.x = m <;> simp [incFirstX, h, ih]

theorem incFirstY_map_x (m : Int) (l : List Vector2) :
    (incFirstY m l).map (·.x) = l.map (·.x) := by
  induction l with
  | nil => rfl
  | cons v t ih =>
    by_cases h : v.y = m <;> simp [incFirstY, h, ih]

theorem incFirstX_nonneg (m : Int) (l : List Vector2)
    (h : ∀ v ∈ l, 0 ≤ v.x) : ∀ v ∈ incFirstX m l, 0 ≤ v.x := by
  induction l with
  | nil => intro v hv; simp [incFirstX] at hv
  | cons u t ih =>
    by_cases hu : u.x = m
    · intro v hv
      simp only [incFirstX, hu, if_pos rfl] at hv
      rcases List.mem_cons.mp hv with rfl | hv
      · have := h u (List.mem_cons_self u t)
        dsimp only
        omega
      · exact h v (List.mem_cons_of_mem u hv)
    · intro v hv
      simp only [incFirstX, if_neg hu] at hv
      rcases List.mem_cons.mp hv with rfl | hv
      · exact h v (List.mem_cons_self v t)
      · exact ih (fun w hw => h w (List.mem_cons_of_mem u hw)) v hv

theorem incFirstY_nonneg (m : Int) (l : List Vector2)
    (h : ∀ v ∈ l, 0 ≤ v.y) : ∀ v ∈ incFirstY m l, 0 ≤ v.y := by
  induction l with
  | nil => intro v hv; simp [incFirstY] at hv
  | cons u t ih =>
    by_cases hu : u.y = m
    · intro v hv
      simp only [incFirstY, hu, if_pos rfl] at hv
      rcases List.mem_cons.mp hv with rfl | hv
      · have := h u (List.mem_cons_self u t)
        dsimp only
        omega
      · exact h v (List.mem_cons_of_mem u hv)
    · intro v hv
      simp only [incFirstY, if_neg hu] at hv
      rcases List.mem_cons.mp hv with rfl | hv
      · exact h v (List.mem_cons_self v t)
      · exact ih (fun w hw => h w (List.mem_cons_of_mem u hw)) v hv

theorem distLoopX_length : ∀ (n : Nat) (l : List Vector2),
    (distLoopX n l).length = l.length := by
  intro n
  induction n with
  | zero => intro l; rfl
  | succ n ih =>
    intro l
    cases l with
    | nil => simp [distLoopX]
    | cons v t =>
      rw [distLoopX]
      simp only [List.isEmpty_cons, Bool.false_eq_true, if_false]
      rw [ih, incFirstX_length]

theorem distLoopY_length : ∀ (n : Nat) (l : List Vector2),
    (distLoopY n l).length = l.length := by
  intro n
  induction n with
  | zero => intro l; rfl
  | succ n ih =>
    intro l
    cases l with
    | nil => simp [distLoopY]
    | cons v t =>
      rw [distLoopY]
      simp only [List.isEmpty_cons, Bool.false_eq_true, if_false]
      rw [ih, incFirstY_length]

theorem distLoopX_map_y : ∀ (n : Nat) (l : List Vector2),
    (distLoopX n l).map (·.y) = l.map (·.y) := by
  intro n
  induction n with
  | zero => intro l; rfl
  | succ n ih =>
    intro l
    cases l with
    | nil => simp [distLoopX]
    | cons v t =>
      rw [distLoopX]
      simp only [List.isEmpty_cons, Bool.false_eq_true, if_false]
      rw [ih, incFirstX_map_y]

theorem distLoopY_map_x : ∀ (n : Nat) (l : List Vector2),
    (distLoopY n l).map (·.x) = l.map (·.x) := by
  intro n
  induction n with
  | zero => intro l; rfl
  | succ n ih =>
    intro l
    cases l with
    | nil => simp [distLoopY]
    | cons v t =>
      rw [distLoopY]
      simp only [List.isEmpty_cons, Bool.false_eq_true, if_false]
      rw [ih, incFirstY_map_x]

theorem distLoopX_nonneg : ∀ (n : Nat) (l : List Vector2),
    (∀ v ∈ l, 0 ≤ v.x) → ∀ v ∈ distLoopX n l, 0 ≤ v.x := by
  intro n
  induction n with
  | zero => intro l h; exact h
  | succ n ih =>
    intro l h
    cases l with
    | nil => simpa [distLoopX] using h
    | cons v t =>
      rw [distLoopX]
      simp only [List.isEmpty_cons, Bool.false_eq_true, if_false]
      exact ih _ (incFirstX_nonneg _ _ h)

theorem distLoopY_nonneg : ∀ (n : Nat) (l : List Vector2),
    (∀ v ∈ l, 0 ≤ v.y) → ∀ v ∈ distLoopY n l, 0 ≤ v.y := by
  intro n
  induction n with
  | zero => intro l h; exact h
  | succ n ih =>
    intro l h
    cases l with
    | nil => simpa [distLoopY] using h
    | cons v t =>
      rw [distLoopY]
      simp only [List.isEmpty_cons, Bool.false_eq_true, if_false]
      exact ih _ (incFirstY_nonneg _ _ h)

theorem sumWeights_nonneg (c : ChildList)
    (hpos : ∀ w ∈ weightsList c, 0 < w) : 0 ≤ sumWeights c :=
  List.sum_nonneg fun w hw => (hpos w hw).le

theorem distributedSizes_length (dir : SpanDirection) (r : Rect) (c : ChildList) :
    (distributedSizes dir r c).length = c.length := by
  unfold distributedSizes
  cases dir with
  | horizontal =>
    simp only
    rw [distLoopX_length]
    unfold baseSizes
    rw [List.length_map, weightsList_length]
  | vertical =>
    simp only
    rw [distLoopY_length]
    unfold baseSizes
    rw [List.length_map, weightsList_length]

theorem distributedSizes_cross_h (r : Rect) (c : ChildList) :
    ∀ v ∈ distributedSizes .horizontal r c, v.y = r.size.y := by
  have hmap : (distributedSizes .horizontal r c).map (·.y)
      = (weightsList c).map (fun _ => r.size.y) := by
    unfold distributedSizes
    simp only
    rw [distLoopX_map_y]
    unfold baseSizes
    rw [List.map_map]
    rfl
  intro v hv
  have hmem : v.y ∈ (distributedSizes .horizontal r c).map (·.y) :=
    List.mem_map_of_mem _ hv
  rw [hmap] at hmem
  obtain ⟨w, _, hw⟩ := List.mem_map.mp hmem
  omega

theorem distributedSizes_cross_v (r : Rect) (c : ChildList) :
    ∀ v ∈ distributedSizes .vertical r c, v.x = r.size.x := by
  have hmap : (distributedSizes .vertical r c).map (·.x)
      = (weightsList c).map (fun _ => r.size.x) := by
    unfold distributedSizes
    simp only
    rw [distLoopY_map_x]
    unfold baseSizes
    rw [List.map_map]
    rfl
  intro v hv
  have hmem : v.x ∈ (distributedSizes .vertical r c).map (·.x) :=
    List.mem_map_of_mem _ hv
  rw [hmap] at hmem
  obtain ⟨w, _, hw⟩ := List.mem_map.mp hmem
  omega

theorem baseSizes_nonneg_h (ps : Vector2) (T : Rat) (ws : List Rat)
    (he : 0 ≤ ps.x) (hT : 0 ≤ T) (hws : ∀ w ∈ ws, 0 < w) :
    ∀ v ∈ baseSizes .horizontal ps T ws, 0 ≤ v.x := by
  intro v hv
  obtain ⟨w, hw, rfl⟩ := List.mem_map.mp hv
  show (0 : Int) ≤ ⌊(ps.x : ℚ) * (w / T)⌋
  exact Int.floor_nonneg.mpr
    (mul_nonneg (by exact_mod_cast he) (div_nonneg (hws w hw).le hT))

theorem baseSizes_nonneg_v (ps : Vector2) (T : Rat) (ws : List Rat)
    (he : 0 ≤ ps.y) (hT : 0 ≤ T) (hws : ∀ w ∈ ws, 0 < w) :
    ∀ v ∈ baseSizes .vertical ps T ws, 0 ≤ v.y := by
  intro v hv
  obtain ⟨w, hw, rfl⟩ := List.mem_map.mp hv
  show (0 : Int) ≤ ⌊(ps.y : ℚ) * (w / T)⌋
  exact Int.floor_nonneg.mpr
    (mul_nonneg (by exact_mod_cast he) (div_nonneg (hws w hw).le hT))

theorem distributedSizes_nonneg_h (r : Rect) (c : ChildList)
    (hx : 0 ≤ r.size.x) (hpos : ∀ w ∈ weightsList c, 0 < w) :
    ∀ v ∈ distributedSizes .horizontal r c, 0 ≤ v.x := by
  unfold distributedSizes
  simp only
  exact distLoopX_nonneg _ _
    (baseSizes_nonneg_h r.size _ _ hx (sumWeights_nonneg c hpos) hpos)

theorem distributedSizes_nonneg_v (r : Rect) (c : ChildList)
    (hy : 0 ≤ r.size.y) (hpos : ∀ w ∈ weightsList c, 0 < w) :
    ∀ v ∈ distributedSizes .vertical r c, 0 ≤ v.y := by
  unfold distributedSizes
  simp only
  exact distLoopY_nonneg _ _
    (baseSizes_nonneg_v r.size _ _ hy (sumWeights_nonneg c hpos) hpos)

mutual
theorem containsId_mem (n : Node) (id : Nat) :
    containsId n id = true ↔ id ∈ allIds n := by
  cases n with
  | void i =>
    simp [containsId, allIds, Nat.beq_eq]
    omega
  | span i dir children =>
    simp only [containsId, allIds, Bool.or_eq_true, List.mem_cons]
    rw [childrenContainId_mem children id]
    simp [Nat.beq_eq]
    constructor
    · rintro (h | h)
      · left; omega
      · right; exact h
    · rintro (h | h)
      · left; omega
      · right; exact h

theorem childrenContainId_mem (c : ChildList) (id : Nat) :
    childrenContainId c id = true ↔ id ∈ allIdsChildren c := by
  cases c with
  | nil => simp [childrenContainId, allIdsChildren]
  | cons w n rest =>
    simp only [childrenContainId, allIdsChildren, Bool.or_eq_true, List.mem_append]
    rw [containsId_mem n id, childrenContainId_mem rest id]
end

mutual
/-- `get_span_dimensions` succeeds exactly when the id occurs in the tree. -/
theorem getSpanDimensions_isSome (node : Node) (spanId : Nat) (r : Rect) :
    (getSpanDimensions node spanId r).isSome = containsId node spanId := by
  rw [getSpanDimensions.eq_def]
  by_cases h : node.id = spanId
  · simp [h, containsId_of_id_eq node spanId h]
  · cases node with
    | void i =>
      simp only [Node.id] at h
      have hb : (i.beq spanId) = false := beq_false_of_ne h
      simp [Node.id, h, containsId, hb]
    | span i dir children =>
      simp only [Node.id] at h
      have hb : (i.beq spanId) = false := beq_false_of_ne h
      simp only [Node.id, h, if_false]
      rw [searchChildren_isSome spanId dir children (distributedSizes dir r children)
        r.position ⟨0, 0⟩ (by rw [distributedSizes_length])]
      simp [containsId, hb]

theorem searchChildren_isSome (spanId : Nat) (dir : SpanDirection) (c : ChildList)
    (sizes : List Vector2) (lastPos lastSize : Vector2)
    (hlen : sizes.length = c.length) :
    (searchChildren spanId dir c sizes lastPos lastSize).isSome
      = childrenContainId c spanId := by
  cases c with
  | nil =>
    rw [searchChildren.eq_def]
    cases sizes <;> simp [childrenContainId]
  | cons w n rest =>
    cases sizes with
    | nil =>
      exfalso
      simp only [List.length_nil, ChildList.length] at hlen
      omega
    | cons s srest =>
      rw [searchChildren.eq_def]
      simp only
      rcases hg : getSpanDimensions n spanId (Rect.new (nextPosition dir lastPos lastSize) s)
        with _ | rr
      · have hs := getSpanDimensions_isSome n spanId
          (Rect.new (nextPosition dir lastPos lastSize) s)
        rw [hg] at hs
        simp only [Option.isSome_none] at hs
        simp only [ChildList.length, List.length_cons] at hlen
        rw [searchChildren_isSome spanId dir rest srest
          (nextPosition dir lastPos lastSize) s (by omega)]
        simp [childrenContainId, ← hs]
      · have hs := getSpanDimensions_isSome n spanId
          (Rect.new (nextPosition dir lastPos lastSize) s)
        rw [hg] at hs
        simp only [Option.isSome_some] at hs
        simp [childrenContainId, ← hs]
end

theorem posWeightsChildren_weights : ∀ (c : ChildList),
    posWeightsChildren c = true → ∀ w ∈ weightsList c, 0 < w
  | .nil => by
    intro _ w hw
    simp [weightsList] at hw
  | .cons w0 n rest => by
    intro h w hw
    simp only [posWeightsChildren, Bool.and_eq_true, decide_eq_true_eq] at h
    simp only [weightsList, List.mem_cons] at hw
    rcases hw with rfl | hw
    · exact h.1.1
    · exact posWeightsChildren_weights rest h.2 w hw

/-- A child's rectangle in the final positioning loop: the size is the
computed one, the position follows the previous child.  `stripRect dir pos a c`
is the rectangle at `pos` with extent `a` along the span axis and `c` across. -/
def stripRect (dir : SpanDirection) (pos : Vector2) (along cross : Int) : Rect :=
  match dir with
  | .horizontal => ⟨pos, ⟨along, cross⟩⟩
  | .vertical => ⟨pos, ⟨cross, along⟩⟩

theorem contains_strip_zero (dir : SpanDirection) (pos : Vector2) (cross : Int)
    (p : Vector2) : ¬ (Rect.contains (stripRect dir pos 0 cross) p = true) := by
  intro h
  cases dir <;>
    (simp only [stripRect, Rect.contains, Bool.and_eq_true, decide_eq_true_eq,
      ge_iff_le] at h; omega)

theorem Rect.new_eq (pos s : Vector2) (hx : 0 ≤ s.x) (hy : 0 ≤ s.y) :
    Rect.new pos s = ⟨pos, s⟩ := by
  obtain ⟨sx, sy⟩ := s
  simp only at hx hy
  simp only [Rect.new, Vector2.max, Vector2.null, Rect.mk.injEq, Vector2.mk.injEq,
    true_and]
  exact ⟨max_eq_left hx, max_eq_left hy⟩

/-- Splitting off the first child: membership in the first child's rectangle
plus membership in the remaining strip equals membership in the whole strip. -/
theorem contains_split (dir : SpanDirection) (pos s : Vector2) (W cross : Int)
    (p : Vector2) (ha : 0 ≤ axisExtent dir s) (hc : crossExtent dir s = cross)
    (hW : 0 ≤ W) :
    ((if Rect.contains ⟨pos, s⟩ p then 1 else 0)
      + (if Rect.contains (stripRect dir (nextPosition dir pos s) W cross) p
          then 1 else 0) : Nat)
      = if Rect.contains (stripRect dir pos (axisExtent dir s + W) cross) p
          then 1 else 0 := by
  cases dir <;>
    (obtain ⟨px, py⟩ := pos
     obtain ⟨sx, sy⟩ := s
     obtain ⟨vx, vy⟩ := p
     simp only [axisExtent, crossExtent] at ha hc
     simp only [Rect.contains, stripRect, nextPosition, axisExtent,
       Bool.and_eq_true, decide_eq_true_eq, ge_iff_le]
     split_ifs <;> omega)

mutual
/-- The leaf rectangles of a laid-out tree partition the parent rectangle:
every point of the parent lies in exactly one leaf rectangle, and no leaf
rectangle reaches outside the parent. -/
theorem leafRects_partition (node : Node) (r : Rect) (p : Vector2)
    (hw : posWeights node = true) (hs : spansNonempty node = true)
    (hx : 0 ≤ r.size.x) (hy : 0 ≤ r.size.y) :
    ((leafRects node r).countP (fun e => Rect.contains e.2 p))
      = if Rect.contains r p then 1 else 0 := by
  cases node with
  | void i =>
    rw [leafRects.eq_def]
    simp [List.countP_cons]
  | span i dir children =>
    simp only [posWeights] at hw
    simp only [spansNonempty, Bool.and_eq_true, Bool.not_eq_true'] at hs
    obtain ⟨hne, hsc⟩ := hs
    have hne' : children.length ≠ 0 := Nat.ne_of_beq_eq_false hne
    have hpos := posWeightsChildren_weights children hw
    have haxis : ∀ v ∈ distributedSizes dir r children, 0 ≤ axisExtent dir v := by
      cases dir with
      | horizontal => exact distributedSizes_nonneg_h r children hx hpos
      | vertical => exact distributedSizes_nonneg_v r children hy hpos
    have hcross : ∀ v ∈ distributedSizes dir r children,
        crossExtent dir v = crossExtent dir r.size := by
      cases dir with
      | horizontal => exact distributedSizes_cross_h r children
      | vertical => exact distributedSizes_cross_v r children
    have hcross0 : 0 ≤ crossExtent dir r.size := by
      cases dir with
      | horizontal => exact hy
      | vertical => exact hx
    rw [leafRects.eq_def]
    simp only
    rw [leafRectsChildren_partition dir children (distributedSizes dir r children)
      r.position ⟨0, 0⟩ p (crossExtent dir r.size) hw hsc
      (distributedSizes_length dir r children) haxis hcross hcross0]
    have hwne : weightsList children ≠ [] := by
      intro h
      have hwl := weightsList_length children
      rw [h] at hwl
      simp only [List.length_nil] at hwl
      exact hne' hwl.symm
    have hsum : ((distributedSizes dir r children).map (axisExtent dir)).sum
        = axisExtent dir r.size := by
      cases dir with
      | horizontal =>
        rw [List.map_congr_left (fun v _ => (rfl : axisExtent .horizontal v = v.x))]
        exact distributedSizes_sum_x r children hwne hpos
      | vertical =>
        rw [List.map_congr_left (fun v _ => (rfl : axisExtent .vertical v = v.y))]
        exact distributedSizes_sum_y r children hwne hpos
    have hrect : stripRect dir (nextPosition dir r.position ⟨0, 0⟩)
        (((distributedSizes dir r children).map (axisExtent dir)).sum)
        (crossExtent dir r.size) = r := by
      rw [hsum]
      obtain ⟨⟨rx, ry⟩, ⟨rsx, rsy⟩⟩ := r
      cases dir <;>
        simp [stripRect, nextPosition, axisExtent, crossExtent]
    rw [hrect]

theorem leafRectsChildren_partition (dir : SpanDirection) (c : ChildList)
    (sizes : List Vector2) (lastPos lastSize : Vector2) (p : Vector2) (cross : Int)
    (hw : posWeightsChildren c = true) (hs : spansNonemptyChildren c = true)
    (hlen : sizes.length = c.length)
    (haxis : ∀ v ∈ sizes, 0 ≤ axisExtent dir v)
    (hcross : ∀ v ∈ sizes, crossExtent dir v = cross)
    (hcross0 : 0 ≤ cross) :
    ((leafRectsChildren dir c sizes lastPos lastSize).countP
        (fun e => Rect.contains e.2 p))
      = if Rect.contains (stripRect dir (nextPosition dir lastPos lastSize)
            ((sizes.map (axisExtent dir)).sum) cross) p then 1 else 0 := by
  cases c with
  | nil =>
    cases sizes with
    | cons s srest =>
      exfalso
      simp only [List.length_cons, ChildList.length] at hlen
      omega
    | nil =>
      rw [leafRectsChildren.eq_def]
      simp only [List.countP_nil, List.map_nil, List.sum_nil]
      rw [if_neg (contains_strip_zero dir _ cross p)]
  | cons w n rest =>
    cases sizes with
    | nil =>
      exfalso
      simp only [List.length_nil, ChildList.length] at hlen
      omega
    | cons s srest =>
      simp only [posWeightsChildren, Bool.and_eq_true] at hw
      simp only [spansNonemptyChildren, Bool.and_eq_true] at hs
      have hsxy : 0 ≤ s.x ∧ 0 ≤ s.y := by
        have h1 := haxis s (List.mem_cons_self s srest)
        have h2 := hcross s (List.mem_cons_self s srest)
        cases dir <;> (simp only [axisExtent, crossExtent] at h1 h2; omega)
      rw [leafRectsChildren.eq_def]
      simp only
      rw [List.countP_append]
      rw [leafRects_partition n (Rect.new (nextPosition dir lastPos lastSize) s) p
        hw.1.2 hs.1 (by rw [Rect.new_eq _ _ hsxy.1 hsxy.2]; exact hsxy.1)
        (by rw [Rect.new_eq _ _ hsxy.1 hsxy.2]; exact hsxy.2)]
      rw [leafRectsChildren_partition dir rest srest
        (nextPosition dir lastPos lastSize) s p cross hw.2 hs.2
        (by simp only [List.length_cons, ChildList.length] at hlen ⊢; omega)
        (fun v hv => haxis v (List.mem_cons_of_mem s hv))
        (fun v hv => hcross v (List.mem_cons_of_mem s hv)) hcross0]
      rw [Rect.new_eq _ _ hsxy.1 hsxy.2]
      have hWnn : 0 ≤ (srest.map (axisExtent dir)).sum :=
        List.sum_nonneg (by
          intro a ha
          obtain ⟨v, hv, rfl⟩ := List.mem_map.mp ha
          exact haxis v (List.mem_cons_of_mem s hv))
      rw [List.map_cons, List.sum_cons]
      exact contains_split dir (nextPosition dir lastPos lastSize) s
        ((srest.map (axisExtent dir)).sum) cross p
        (haxis s (List.mem_cons_self s srest))
        (hcross s (List.mem_cons_self s srest)) hWnn
end

mutual
theorem mem_allIds_of_mem_leafRects (n : Node) (r : Rect) :
    ∀ pair ∈ leafRects n r, pair.1 ∈ allIds n := by
  cases n with
  | void i =>
    intro pair hpair
    rw [leafRects.eq_def] at hpair
    simp only [List.mem_singleton] at hpair
    subst hpair
    simp [allIds]
  | span i dir children =>
    intro pair hpair
    rw [leafRects.eq_def] at hpair
    simp only [allIds, List.mem_cons]
    exact Or.inr (mem_allIdsChildren_of_mem_leafRectsChildren dir children _ _ _ pair hpair)

theorem mem_allIdsChildren_of_mem_leafRectsChildren (dir : SpanDirection)
    (c : ChildList) (sizes : List Vector2) (lastPos lastSize : Vector2) :
    ∀ pair ∈ leafRectsChildren dir c sizes lastPos lastSize,
      pair.1 ∈ allIdsChildren c := by
  cases c with
  | nil =>
    intro pair hpair
    rw [leafRectsChildren.eq_def] at hpair
    cases sizes <;> simp at hpair
  | cons w n rest =>
    cases sizes with
    | nil =>
      intro pair hpair
      rw [leafRectsChildren.eq_def] at hpair
      simp at hpair
    | cons s srest =>
      intro pair hpair
      rw [leafRectsChildren.eq_def] at hpair
      simp only [List.mem_append] at hpair
      simp only [allIdsChildren, List.mem_append]
      rcases hpair with h | h
      · exact Or.inl (mem_allIds_of_mem_leafRects n _ pair h)
      · exact Or.inr (mem_allIdsChildren_of_mem_leafRectsChildren dir rest srest _ _ pair h)
end

mutual
/-- Under distinct node ids, `get_span_dimensions` queried at a leaf id
returns exactly that leaf's rectangle from the layout. -/
theorem getSpanDimensions_of_mem_leafRects (n : Node) (r : Rect)
    (hnd : (allIds n).Nodup) :
    ∀ pair ∈ leafRects n r, getSpanDimensions n pair.1 r = some pair.2 := by
  cases n with
  | void i =>
    intro pair hpair
    rw [leafRects.eq_def] at hpair
    simp only [List.mem_singleton] at hpair
    subst hpair
    rw [getSpanDimensions.eq_def]
    simp [Node.id]
  | span i dir children =>
    intro pair hpair
    rw [leafRects.eq_def] at hpair
    simp only at hpair
    simp only [allIds, List.nodup_cons] at hnd
    have hmem : pair.1 ∈ allIdsChildren children :=
      mem_allIdsChildren_of_mem_leafRectsChildren dir children _ _ _ pair hpair
    have hne : ¬ (i = pair.1) := fun h => hnd.1 (h ▸ hmem)
    rw [getSpanDimensions.eq_def]
    simp only [Node.id, if_neg hne]
    exact searchChildren_of_mem_leafRectsChildren dir children _ _ _ hnd.2 pair hpair

theorem searchChildren_of_mem_leafRectsChildren (dir : SpanDirection)
    (c : ChildList) (sizes : List Vector2) (lastPos lastSize : Vector2)
    (hnd : (allIdsChildren c).Nodup) :
    ∀ pair ∈ leafRectsChildren dir c sizes lastPos lastSize,
      searchChildren pair.1 dir c sizes lastPos lastSize = some pair.2 := by
  cases c with
  | nil =>
    intro pair hpair
    rw [leafRectsChildren.eq_def] at hpair
    cases sizes <;> simp at hpair
  | cons w n rest =>
    cases sizes with
    | nil =>
      intro pair hpair
      rw [leafRectsChildren.eq_def] at hpair
      simp at hpair
    | cons s srest =>
      intro pair hpair
      rw [leafRectsChildren.eq_def] at hpair
      simp only [List.mem_append] at hpair
      simp only [allIdsChildren] at hnd
      have hndl : (allIds n).Nodup := hnd.of_append_left
      have hndr : (allIdsChildren rest).Nodup := hnd.of_append_right
      have hdisj : ∀ a ∈ allIds n, a ∉ allIdsChildren rest :=
        fun a ha => List.disjoint_of_nodup_append hnd ha
      rw [searchChildren.eq_def]
      simp only
      rcases hpair with h | h
      · rw [getSpanDimensions_of_mem_leafRects n _ hndl pair h]
      · have hmem : pair.1 ∈ allIdsChildren rest :=
          mem_allIdsChildren_of_mem_leafRectsChildren dir rest srest _ _ pair h
        have hnot : pair.1 ∉ allIds n := fun hin => hdisj pair.1 hin hmem
        have hcf : containsId n pair.1 = false := by
          cases hc : containsId n pair.1
          · rfl
          · exact absurd ((containsId_mem n pair.1).mp hc) hnot
        have hnone : getSpanDimensions n pair.1
            (Rect.new (nextPosition dir lastPos lastSize) s) = none := by
          have his := getSpanDimensions_isSome n pair.1
            (Rect.new (nextPosition dir lastPos lastSize) s)
          rw [hcf] at his
          cases hg : getSpanDimensions n pair.1
              (Rect.new (nextPosition dir lastPos lastSize) s) with
          | none => rfl
          | some v =>
            rw [hg] at his
            simp at his
        rw [hnone]
        exact searchChildren_of_mem_leafRectsChildren dir rest srest _ _ hndr pair h
end

mutual
theorem leafIds_eq (n : Node) (r : Rect) :
    leafIds n = (leafRects n r).map (fun e => e.1) := by
  cases n with
  | void i =>
    rw [leafRects.eq_def]
    simp [leafIds]
  | span i dir children =>
    rw [leafRects.eq_def]
    simp only [leafIds]
    exact leafIdsChildren_eq dir children (distributedSizes dir r children)
      r.position ⟨0, 0⟩ (distributedSizes_length dir r children)

theorem leafIdsChildren_eq (dir : SpanDirection) (c : ChildList)
    (sizes : List Vector2) (lastPos lastSize : Vector2)
    (hlen : sizes.length = c.length) :
    leafIdsChildren c
      = (leafRectsChildren dir c sizes lastPos lastSize).map (fun e => e.1) := by
  cases c with
  | nil =>
    rw [leafRectsChildren.eq_def]
    cases sizes <;> simp [leafIdsChildren]
  | cons w n rest =>
    cases sizes with
    | nil =>
      exfalso
      simp only [List.length_nil, ChildList.length] at hlen
      omega
    | cons s srest =>
      rw [leafRectsChildren.eq_def]
      simp only [leafIdsChildren, List.map_append]
      rw [← leafIds_eq n (Rect.new (nextPosition dir lastPos lastSize) s)]
      rw [← leafIdsChildren_eq dir rest srest (nextPosition dir lastPos lastSize) s
        (by simp only [List.length_cons, ChildList.length] at hlen ⊢; omega)]
end

/-- C1: `get_span_dimensions(tree, id, root_rect)` is `None` exactly when `id`
does not occur in the tree; and — for a tree with distinct ids, positive
weights, no childless spans, and a non-negative root rectangle — querying it
at each `Void` leaf's id returns that leaf's layout rectangle, and those leaf
rectangles tile `root_rect` exactly: every point of `root_rect` lies in
exactly one leaf rectangle and points outside `root_rect` lie in none
(pairwise non-overlap plus exact cover). -/
theorem c1_layout_none_iff_absent_and_leaves_partition
    (node : Node) (rootRect : Rect) (spanId : Nat)
    (hw : posWeights node = true) (hs : spansNonempty node = true)
    (hnd : (allIds node).Nodup)
    (hx : 0 ≤ rootRect.size.x) (hy : 0 ≤ rootRect.size.y) :
    (getSpanDimensions node spanId rootRect = none
      ↔ containsId node spanId = false)
    ∧ (∀ pair ∈ leafRects node rootRect,
        getSpanDimensions node pair.1 rootRect = some pair.2)
    ∧ leafIds node = (leafRects node rootRect).map (fun e => e.1)
    ∧ (∀ p : Vector2,
        (leafRects node rootRect).countP (fun e => Rect.contains e.2 p)
          = if Rect.contains rootRect p then 1 else 0) := by
  refine ⟨?_, getSpanDimensions_of_mem_leafRects node rootRect hnd,
    leafIds_eq node rootRect,
    fun p => leafRects_partition node rootRect p hw hs hx hy⟩
  constructor
  · intro h
    have his := getSpanDimensions_isSome node spanId rootRect
    rw [h] at his
    simp only [Option.isSome_none] at his
    exact his.symm
  · intro h
    have his := getSpanDimensions_isSome node spanId rootRect
    rw [h] at his
    cases hg : getSpanDimensions node spanId rootRect with
    | none => rfl
    | some v =>
      rw [hg] at his
      simp at his

/-- Witness for C1 at a concrete tree: a horizontal root span with two `Void`
leaves over an 80×24 rectangle; the query at an absent id is `None`, and the
point `(10, 10)` lies in exactly one leaf rectangle. -/
theorem c1_layout_witness :
    (posWeights (Node.span 0 .horizontal
        (.cons 1 (.void 1) (.cons 1 (.void 2) .nil))) = true
      ∧ spansNonempty (Node.span 0 .horizontal
          (.cons 1 (.void 1) (.cons 1 (.void 2) .nil))) = true
      ∧ (allIds (Node.span 0 .horizontal
          (.cons 1 (.void 1) (.cons 1 (.void 2) .nil)))).Nodup
      ∧ 0 ≤ (⟨⟨0, 0⟩, ⟨80, 24⟩⟩ : Rect).size.x
      ∧ 0 ≤ (⟨⟨0, 0⟩, ⟨80, 24⟩⟩ : Rect).size.y)
    ∧ (getSpanDimensions (Node.span 0 .horizontal
          (.cons 1 (.void 1) (.cons 1 (.void 2) .nil))) 9 ⟨⟨0, 0⟩, ⟨80, 24⟩⟩ = none
        ↔ containsId (Node.span 0 .horizontal
            (.cons 1 (.void 1) (.cons 1 (.void 2) .nil))) 9 = false)
    ∧ (leafRects (Node.span 0 .horizontal
          (.cons 1 (.void 1) (.cons 1 (.void 2) .nil))) ⟨⟨0, 0⟩, ⟨80, 24⟩⟩).countP
            (fun e => Rect.contains e.2 ⟨10, 10⟩)
        = if Rect.contains (⟨⟨0, 0⟩, ⟨80, 24⟩⟩ : Rect) ⟨10, 10⟩ then 1 else 0 := by
  have h := c1_layout_none_iff_absent_and_leaves_partition
    (Node.span 0 .horizontal (.cons 1 (.void 1) (.cons 1 (.void 2) .nil)))
    ⟨⟨0, 0⟩, ⟨80, 24⟩⟩ 9 (by decide) (by decide) (by decide) (by decide) (by decide)
  exact ⟨⟨by decide, by decide, by decide, by decide, by decide⟩,
    h.1, h.2.2.2 ⟨10, 10⟩⟩

/-! ## `remove_node` behaviour (C4) -/

theorem removeNode_root_id (root : Node) :
    removeNode root root.id = .ok (.void root.id, none) := by
  rw [removeNode.eq_def]
  simp

theorem removeNode_general_last (root : Node) (id : Nat) (nd : Node)
    (path : List Nat) (parentId : Nat) (pi : Nat) (pdir : SpanDirection)
    (children : ChildList) (tail : List Nat) (k : Nat) (lastN : Node)
    (hne : ¬ root.id = id)
    (hfd : findById root id = some (nd, path))
    (hlast : path.getLast? = some parentId)
    (hfp : findById root parentId = some (.span pi pdir children, tail))
    (hidx : childIndexOf children id = some k)
    (hlastc : childLast? (childEraseIdx children k) = some lastN) :
    removeNode root id
      = .ok (mutateFirst root parentId
          (Node.withChildren · (childEraseIdx children k)), some lastN.id) := by
  rw [removeNode.eq_def, if_neg hne]
  simp only [hfd, hlast]
  split
  · next h => rw [hfp] at h; exact Option.noConfusion h
  · next parent snd h =>
      rw [hfp] at h
      injection h with h
      injection h with h1 h2
      subst h2
      subst h1
      simp only []
      split
      · next h' => rw [hidx] at h'; exact Option.noConfusion h'
      · next k' h' =>
          rw [hidx] at h'
          injection h' with h'
          subst h'
          rw [hlastc]

theorem removeNode_general_collapse (root : Node) (id : Nat) (nd : Node)
    (path : List Nat) (parentId : Nat) (pi : Nat) (pdir : SpanDirection)
    (children : ChildList) (tail : List Nat) (k : Nat)
    (hne : ¬ root.id = id)
    (hfd : findById root id = some (nd, path))
    (hlast : path.getLast? = some parentId)
    (hfp : findById root parentId = some (.span pi pdir children, tail))
    (hidx : childIndexOf children id = some k)
    (hlastc : childLast? (childEraseIdx children k) = none) :
    removeNode root id
      = removeNode (mutateFirst root parentId
          (Node.withChildren · (childEraseIdx children k))) parentId := by
  rw [removeNode.eq_def, if_neg hne]
  simp only [hfd, hlast]
  split
  · next h => rw [hfp] at h; exact Option.noConfusion h
  · next parent snd h =>
      rw [hfp] at h
      injection h with h
      injection h with h1 h2
      subst h2
      subst h1
      simp only []
      split
      · next h' => rw [hidx] at h'; exact Option.noConfusion h'
      · next k' h' =>
          rw [hidx] at h'
          injection h' with h'
          subst h'
          rw [hlastc]

theorem findById_self (root : Node) : findById root root.id = some (root, []) := by
  rw [findById, findByIdAux.eq_def]
  simp

theorem removeNode_single_child (i : Nat) (dir : SpanDirection) (w : Rat) (n : Node)
    (hne : ¬ n.id = i) :
    removeNode (.span i dir (.cons w n .nil)) n.id = .ok (.void i, none) := by
  have hne' : ¬ (Node.id (.span i dir (.cons w n .nil)) = n.id) :=
    fun h => hne (h.symm)
  have hfd : findById (.span i dir (.cons w n .nil)) n.id = some (n, [i]) := by
    rw [findById, findByIdAux.eq_def, if_neg hne']
    simp only []
    rw [findInChildren.eq_def]
    simp
  have hfp : findById (.span i dir (.cons w n .nil)) i
      = some (.span i dir (.cons w n .nil), []) := findById_self _
  have hidx : childIndexOf (.cons w n .nil) n.id = some 0 := by
    simp [childIndexOf]
  have step := removeNode_general_collapse (.span i dir (.cons w n .nil)) n.id n [i]
    i i dir (.cons w n .nil) [] 0 hne' hfd rfl hfp hidx rfl
  rw [step]
  have hmf : mutateFirst (.span i dir (.cons w n .nil)) i
      (Node.withChildren · (childEraseIdx (.cons w n .nil) 0)) = .span i dir .nil := by
    rw [mutateFirst.eq_def]
    simp [Node.id, Node.withChildren, childEraseIdx]
  rw [hmf]
  exact removeNode_root_id (.span i dir .nil)

theorem removeNode_two_siblings_left (i : Nat) (dir : SpanDirection) (w1 w2 : Rat)
    (a b : Node) (hna : ¬ a.id = i) :
    removeNode (.span i dir (.cons w1 a (.cons w2 b .nil))) a.id
      = .ok (.span i dir (.cons w2 b .nil), some b.id) := by
  have hne' : ¬ (Node.id (.span i dir (.cons w1 a (.cons w2 b .nil))) = a.id) :=
    fun h => hna (h.symm)
  have hfd : findById (.span i dir (.cons w1 a (.cons w2 b .nil))) a.id
      = some (a, [i]) := by
    rw [findById, findByIdAux.eq_def, if_neg hne']
    simp only []
    rw [findInChildren.eq_def]
    simp
  have hfp : findById (.span i dir (.cons w1 a (.cons w2 b .nil))) i
      = some (.span i dir (.cons w1 a (.cons w2 b .nil)), []) := findById_self _
  have hidx : childIndexOf (.cons w1 a (.cons w2 b .nil)) a.id = some 0 := by
    simp [childIndexOf]
  have step := removeNode_general_last (.span i dir (.cons w1 a (.cons w2 b .nil)))
    a.id a [i] i i dir (.cons w1 a (.cons w2 b .nil)) [] 0 b hne' hfd rfl hfp hidx rfl
  rw [step]
  have hmf : mutateFirst (.span i dir (.cons w1 a (.cons w2 b .nil))) i
      (Node.withChildren · (childEraseIdx (.cons w1 a (.cons w2 b .nil)) 0))
      = .span i dir (.cons w2 b .nil) := by
    rw [mutateFirst.eq_def]
    simp [Node.id, Node.withChildren, childEraseIdx]
  rw [hmf]

theorem removeNode_two_siblings_right (i : Nat) (dir : SpanDirection) (w1 w2 : Rat)
    (a b : Node) (hnb : ¬ b.id = i) (hca : containsId a b.id = false) :
    removeNode (.span i dir (.cons w1 a (.cons w2 b .nil))) b.id
      = .ok (.span i dir (.cons w1 a .nil), some a.id) := by
  have hab : ¬ a.id = b.id := by
    intro h
    rw [containsId_of_id_eq a b.id h] at hca
    exact Bool.noConfusion hca
  have hne' : ¬ (Node.id (.span i dir (.cons w1 a (.cons w2 b .nil))) = b.id) :=
    fun h => hnb (h.symm)
  have haux : findByIdAux a b.id [i] = none := by
    have his := findByIdAux_isSome a b.id [i]
    rw [hca] at his
    cases hg : findByIdAux a b.id [i] with
    | none => rfl
    | some v =>
      rw [hg] at his
      simp at his
  have hfd : findById (.span i dir (.cons w1 a (.cons w2 b .nil))) b.id
      = some (b, [i]) := by
    rw [findById, findByIdAux.eq_def, if_neg hne']
    simp only []
    rw [findInChildren.eq_def]
    simp only [List.nil_append, if_neg hab, haux]
    rw [findInChildren.eq_def]
    simp
  have hfp : findById (.span i dir (.cons w1 a (.cons w2 b .nil))) i
      = some (.span i dir (.cons w1 a (.cons w2 b .nil)), []) := findById_self _
  have hidx : childIndexOf (.cons w1 a (.cons w2 b .nil)) b.id = some 1 := by
    simp [childIndexOf, hab]
  have step := removeNode_general_last (.span i dir (.cons w1 a (.cons w2 b .nil)))
    b.id b [i] i i dir (.cons w1 a (.cons w2 b .nil)) [] 1 a hne' hfd rfl hfp hidx rfl
  rw [step]
  have hmf : mutateFirst (.span i dir (.cons w1 a (.cons w2 b .nil))) i
      (Node.withChildren · (childEraseIdx (.cons w1 a (.cons w2 b .nil)) 1))
      = .span i dir (.cons w1 a .nil) := by
    rw [mutateFirst.eq_def]
    simp [Node.id, Node.withChildren, childEraseIdx]
  rw [hmf]

/-- C4: `remove_node` applied to the root id (in particular to a lone root
pane) yields the no-active-pane result `None`; removing the only child of a
span collapses the span and also yields `None`; removing one of exactly two
siblings leaves the other sibling's id as the new active pane; and in general,
when the removed node's parent span retains at least one child the parent's
last remaining child's id becomes the new active id, while a parent left
childless is removed by the same procedure recursively. -/
theorem c4_remove_node_active_semantics :
    (∀ root : Node, removeNode root root.id = .ok (.void root.id, none))
    ∧ (∀ (i : Nat) (dir : SpanDirection) (w : Rat) (n : Node), ¬ n.id = i →
        removeNode (.span i dir (.cons w n .nil)) n.id = .ok (.void i, none))
    ∧ (∀ (i : Nat) (dir : SpanDirection) (w1 w2 : Rat) (a b : Node), ¬ a.id = i →
        removeNode (.span i dir (.cons w1 a (.cons w2 b .nil))) a.id
          = .ok (.span i dir (.cons w2 b .nil), some b.id))
    ∧ (∀ (i : Nat) (dir : SpanDirection) (w1 w2 : Rat) (a b : Node), ¬ b.id = i →
        containsId a b.id = false →
        removeNode (.span i dir (.cons w1 a (.cons w2 b .nil))) b.id
          = .ok (.span i dir (.cons w1 a .nil), some a.id))
    ∧ (∀ (root : Node) (id : Nat) (nd : Node) (path : List Nat) (parentId pi : Nat)
        (pdir : SpanDirection) (children : ChildList) (tail : List Nat) (k : Nat)
        (lastN : Node), ¬ root.id = id →
        findById root id = some (nd, path) →
        path.getLast? = some parentId →
        findById root parentId = some (.span pi pdir children, tail) →
        childIndexOf children id = some k →
        childLast? (childEraseIdx children k) = some lastN →
        removeNode root id
          = .ok (mutateFirst root parentId
              (Node.withChildren · (childEraseIdx children k)), some lastN.id))
    ∧ (∀ (root : Node) (id : Nat) (nd : Node) (path : List Nat) (parentId pi : Nat)
        (pdir : SpanDirection) (children : ChildList) (tail : List Nat) (k : Nat),
        ¬ root.id = id →
        findById root id = some (nd, path) →
        path.getLast? = some parentId →
        findById root parentId = some (.span pi pdir children, tail) →
        childIndexOf children id = some k →
        childLast? (childEraseIdx children k) = none →
        removeNode root id
          = removeNode (mutateFirst root parentId
              (Node.withChildren · (childEraseIdx children k))) parentId) :=
  ⟨removeNode_root_id, removeNode_single_child, removeNode_two_siblings_left,
    removeNode_two_siblings_right,
    fun root id nd path parentId pi pdir children tail k lastN h1 h2 h3 h4 h5 h6 =>
      removeNode_general_last root id nd path parentId pi pdir children tail k
        lastN h1 h2 h3 h4 h5 h6,
    fun root id nd path parentId pi pdir children tail k h1 h2 h3 h4 h5 h6 =>
      removeNode_general_collapse root id nd path parentId pi pdir children tail k
        h1 h2 h3 h4 h5 h6⟩

/-- Witness for C4 at concrete inputs: removing the only child of a
single-child span signals no-active-pane, and removing the left one of two
sibling panes makes the right sibling active. -/
theorem c4_remove_node_witness :
    (¬ (Node.void 1).id = 0
      ∧ removeNode (.span 0 .horizontal (.cons 1 (.void 1) .nil)) (Node.void 1).id
          = .ok (.void 0, none))
    ∧ (¬ (Node.void 1).id = 0
      ∧ removeNode (.span 0 .horizontal
            (.cons 1 (.void 1) (.cons 1 (.void 2) .nil))) (Node.void 1).id
          = .ok (.span 0 .horizontal (.cons 1 (.void 2) .nil), some (Node.void 2).id)) :=
  ⟨⟨by decide,
      c4_remove_node_active_semantics.2.1 0 .horizontal 1 (.void 1) (by decide)⟩,
    ⟨by decide,
      c4_remove_node_active_semantics.2.2.1 0 .horizontal 1 1 (.void 1) (.void 2)
        (by decide)⟩⟩

/-! ## The renterm canvas invariant (C8) -/

/-- The buffer-length invariant as the code maintains it: `abs(x*y)` cells. -/
def cellsLenInv (c : Renterm.Canvas) : Prop :=
  c.cells.length = (c.size.x * c.size.y).natAbs

theorem setCell_size (c : Renterm.Canvas) (p : Vector2) (cell : Cell) :
    (c.setCell p cell).size = c.size := by
  unfold Renterm.Canvas.setCell
  dsimp only
  split_ifs <;> rfl

theorem setCell_length (c : Renterm.Canvas) (p : Vector2) (cell : Cell) :
    (c.setCell p cell).cells.length = c.cells.length := by
  unfold Renterm.Canvas.setCell
  dsimp only
  split_ifs <;> simp

theorem getD_set_ne (l : List Cell) (i j : Nat) (a d : Cell) (hij : i ≠ j) :
    (l.set i a).getD j d = l.getD j d := by
  simp [List.getD, List.getElem?_set_ne hij]

theorem rowMajor_ne (sx px py qx qy : Int)
    (hp1 : 0 ≤ px) (hp2 : px < sx) (hq1 : 0 ≤ qx) (hq2 : qx < sx)
    (hne : qx ≠ px ∨ qy ≠ py) :
    qy * sx + qx ≠ py * sx + px := by
  intro h
  by_cases hy : qy = py
  · subst hy
    have hx : qx = px := add_left_cancel h
    rcases hne with hne | hne
    · exact hne hx
    · exact hne rfl
  · have hsx : 0 < sx := lt_of_le_of_lt hp1 hp2
    rcases lt_or_gt_of_ne hy with hlt | hlt
    · have h2 : (qy + 1) * sx ≤ py * sx :=
        mul_le_mul_of_nonneg_right (by omega) hsx.le
      rw [add_mul, one_mul] at h2
      linarith
    · have h2 : (py + 1) * sx ≤ qy * sx :=
        mul_le_mul_of_nonneg_right (by omega) hsx.le
      rw [add_mul, one_mul] at h2
      linarith

theorem getCell_setCell_ne (c : Renterm.Canvas) (p q : Vector2) (cell : Cell)
    (hne : q.x ≠ p.x ∨ q.y ≠ p.y) :
    (c.setCell p cell).getCell q = c.getCell q := by
  have hsz : (c.setCell p cell).size = c.size := setCell_size c p cell
  have hlen : (c.setCell p cell).cells.length = c.cells.length := setCell_length c p cell
  unfold Renterm.Canvas.getCell
  dsimp only
  rw [hsz, hlen]
  split_ifs with g1 g2 g3
  · rfl
  · rfl
  · rfl
  · push_neg at g1 g2 g3
    unfold Renterm.Canvas.setCell
    dsimp only
    split_ifs with s1 s2 s3
    · rfl
    · rfl
    · rfl
    · push_neg at s1 s2
      dsimp only
      have hqy : 0 ≤ q.y * c.size.x := mul_nonneg g1.2 (le_trans g1.1 g2.1.le)
      have hpy : 0 ≤ p.y * c.size.x := mul_nonneg s1.2 (le_trans s1.1 s2.1.le)
      have hIne : p.y * c.size.x + p.x ≠ q.y * c.size.x + q.x :=
        fun h => rowMajor_ne c.size.x q.x q.y p.x p.y g1.1 g2.1 s1.1 s2.1
          (by tauto) h
      exact getD_set_ne _ _ _ _ _ (by omega)

/-- Well-formedness used for the in-bounds reasoning: non-negative size and
the exact length invariant. -/
def canvasWF (c : Renterm.Canvas) : Prop :=
  0 ≤ c.size.x ∧ 0 ≤ c.size.y ∧ (c.cells.length : Int) = c.size.x * c.size.y

theorem index_bounds_of_inBounds (c : Renterm.Canvas) (hwf : canvasWF c)
    (X Y : Int) (hx1 : 0 ≤ X) (hx2 : X < c.size.x) (hy1 : 0 ≤ Y) (hy2 : Y < c.size.y) :
    0 ≤ Y * c.size.x + X ∧ (Y * c.size.x + X).toNat < c.cells.length := by
  obtain ⟨hsx, hsy, hlen⟩ := hwf
  have hnn : 0 ≤ Y * c.size.x := mul_nonneg hy1 hsx
  have hb : (Y + 1) * c.size.x ≤ c.size.y * c.size.x :=
    mul_le_mul_of_nonneg_right (by omega) hsx
  rw [add_mul, one_mul] at hb
  have hcomm : c.size.y * c.size.x = c.size.x * c.size.y := mul_comm _ _
  constructor
  · omega
  · omega

theorem getCell_inBounds (c : Renterm.Canvas) (X Y : Int)
    (hx1 : 0 ≤ X) (hx2 : X < c.size.x) (hy1 : 0 ≤ Y) (hy2 : Y < c.size.y)
    (hidx : (Y * c.size.x + X).toNat < c.cells.length) :
    c.getCell ⟨X, Y⟩ = c.cells.getD (Y * c.size.x + X).toNat Cell.default := by
  unfold Renterm.Canvas.getCell
  dsimp only
  rw [if_neg (by omega), if_neg (by simp only [not_or]; constructor <;> omega),
    if_neg (by omega)]

theorem getCell_setCell_self (c : Renterm.Canvas) (p : Vector2) (cell : Cell)
    (h1 : 0 ≤ p.x) (h2 : p.x < c.size.x) (h3 : 0 ≤ p.y) (h4 : p.y < c.size.y)
    (h5 : (p.y * c.size.x + p.x).toNat < c.cells.length) :
    (c.setCell p cell).getCell p = cell := by
  unfold Renterm.Canvas.setCell
  dsimp only
  rw [if_neg (by omega), if_neg (by simp only [not_or]; constructor <;> omega),
    if_neg (by omega)]
  unfold Renterm.Canvas.getCell
  dsimp only
  rw [if_neg (by omega), if_neg (by simp only [not_or]; constructor <;> omega),
    if_neg (by simp only [List.length_set]; omega)]
  have := @List.getElem?_set_self' Cell c.cells ((p.y * c.size.x + p.x).toNat) cell
  simp [List.getD, this, List.getElem?_eq_getElem h5]

theorem base_getCell_default (s q : Vector2) :
    (Renterm.Canvas.mk (List.replicate (s.x * s.y).natAbs Cell.default) s).getCell q
      = Cell.default := by
  unfold Renterm.Canvas.getCell
  dsimp only
  split_ifs with h1 h2 h3
  · rfl
  · rfl
  · rfl
  · rcases hoc : (List.replicate (s.x * s.y).natAbs Cell.default).get?
        ((q.y * s.x + q.x).toNat) with _ | c
    · simp [List.getD, hoc]
    · have hmem := List.get?_mem hoc
      have := List.eq_of_mem_replicate hmem
      simp [List.getD, hoc, this]

theorem Renterm.copyCellStep_size (oc : List Cell) (osx : Int) (y : Nat)
    (acc : Renterm.Canvas) (x : Nat) :
    (Renterm.copyCellStep oc osx y acc x).size = acc.size := by
  unfold Renterm.copyCellStep
  dsimp only
  split_ifs
  · rfl
  · exact setCell_size _ _ _

theorem Renterm.copyCellStep_length (oc : List Cell) (osx : Int) (y : Nat)
    (acc : Renterm.Canvas) (x : Nat) :
    (Renterm.copyCellStep oc osx y acc x).cells.length = acc.cells.length := by
  unfold Renterm.copyCellStep
  dsimp only
  split_ifs
  · rfl
  · exact setCell_length _ _ _

theorem Renterm.copyCellStep_getCell_ne (oc : List Cell) (osx : Int) (y : Nat)
    (acc : Renterm.Canvas) (x : Nat) (q : Vector2)
    (hne : q.x ≠ (x : Int) ∨ q.y ≠ (y : Int)) :
    (Renterm.copyCellStep oc osx y acc x).getCell q = acc.getCell q := by
  unfold Renterm.copyCellStep
  dsimp only
  split_ifs
  · rfl
  · exact getCell_setCell_ne _ _ _ _ hne

theorem foldl_copyCell_size (oc : List Cell) (osx : Int) (y : Nat) :
    ∀ (l : List Nat) (acc : Renterm.Canvas),
      (l.foldl (Renterm.copyCellStep oc osx y) acc).size = acc.size
  | [], acc => rfl
  | x :: t, acc => by
    rw [List.foldl_cons, foldl_copyCell_size oc osx y t _, Renterm.copyCellStep_size]

theorem foldl_copyCell_length (oc : List Cell) (osx : Int) (y : Nat) :
    ∀ (l : List Nat) (acc : Renterm.Canvas),
      (l.foldl (Renterm.copyCellStep oc osx y) acc).cells.length = acc.cells.length
  | [], acc => rfl
  | x :: t, acc => by
    rw [List.foldl_cons, foldl_copyCell_length oc osx y t _, Renterm.copyCellStep_length]

theorem foldl_copyCell_getCell_ne_row (oc : List Cell) (osx : Int) (y : Nat)
    (q : Vector2) (hq : q.y ≠ (y : Int)) :
    ∀ (l : List Nat) (acc : Renterm.Canvas),
      (l.foldl (Renterm.copyCellStep oc osx y) acc).getCell q = acc.getCell q
  | [], acc => rfl
  | x :: t, acc => by
    rw [List.foldl_cons, foldl_copyCell_getCell_ne_row oc osx y q hq t _,
      Renterm.copyCellStep_getCell_ne _ _ _ _ _ _ (Or.inr hq)]

theorem Renterm.copyRowStep_size (oc : List Cell) (osx : Int) (xmax : Nat)
    (acc : Renterm.Canvas) (y : Nat) :
    (Renterm.copyRowStep oc osx xmax acc y).size = acc.size :=
  foldl_copyCell_size oc osx y _ acc

theorem Renterm.copyRowStep_length (oc : List Cell) (osx : Int) (xmax : Nat)
    (acc : Renterm.Canvas) (y : Nat) :
    (Renterm.copyRowStep oc osx xmax acc y).cells.length = acc.cells.length :=
  foldl_copyCell_length oc osx y _ acc

theorem canvasWF_copyRowStep (oc : List Cell) (osx : Int) (xmax : Nat)
    (acc : Renterm.Canvas) (y : Nat) (hwf : canvasWF acc) :
    canvasWF (Renterm.copyRowStep oc osx xmax acc y) := by
  unfold canvasWF at *
  rw [Renterm.copyRowStep_size, Renterm.copyRowStep_length]
  exact hwf

theorem copyRowStep_getCell_spec (oc : List Cell) (osx : Int) (y : Nat) :
    ∀ (xmax : Nat) (acc : Renterm.Canvas), canvasWF acc →
      ∀ X : Nat, (X : Int) < acc.size.x → ((y : Int)) < acc.size.y →
      (Renterm.copyRowStep oc osx xmax acc y).getCell ⟨(X : Int), (y : Int)⟩ =
        if X < xmax ∧ 0 ≤ (y : Int) * osx + (X : Int)
            ∧ ((y : Int) * osx + (X : Int)).toNat < oc.length
        then oc.getD ((y : Int) * osx + (X : Int)).toNat Cell.default
        else acc.getCell ⟨(X : Int), (y : Int)⟩ := by
  intro xmax
  induction xmax with
  | zero =>
    intro acc hwf X hx hy
    rw [if_neg (by omega)]
    rfl
  | succ n ih =>
    intro acc hwf X hx hy
    unfold Renterm.copyRowStep
    rw [List.range_succ, List.foldl_append, List.foldl_cons, List.foldl_nil]
    have hpre : (List.range n).foldl (Renterm.copyCellStep oc osx y) acc
        = Renterm.copyRowStep oc osx n acc y := rfl
    rw [hpre]
    have hprev_size : (Renterm.copyRowStep oc osx n acc y).size = acc.size :=
      Renterm.copyRowStep_size oc osx n acc y
    have hprev_wf : canvasWF (Renterm.copyRowStep oc osx n acc y) :=
      canvasWF_copyRowStep oc osx n acc y hwf
    by_cases hX : X = n
    · subst hX
      by_cases hg : ((y : Int) * osx + (X : Int) < 0
          ∨ oc.length ≤ ((y : Int) * osx + (X : Int)).toNat)
      · rw [show Renterm.copyCellStep oc osx y (Renterm.copyRowStep oc osx X acc y) X
            = Renterm.copyRowStep oc osx X acc y from by
          unfold Renterm.copyCellStep; dsimp only; rw [if_pos hg]]
        rw [ih acc hwf X hx hy]
        rw [if_neg (by omega), if_neg (by omega)]
      · rw [show Renterm.copyCellStep oc osx y (Renterm.copyRowStep oc osx X acc y) X
            = (Renterm.copyRowStep oc osx X acc y).setCell ⟨(X : Int), (y : Int)⟩
                (oc.getD ((y : Int) * osx + (X : Int)).toNat Cell.default) from by
          unfold Renterm.copyCellStep; dsimp only; rw [if_neg hg]]
        rw [getCell_setCell_self _ _ _ (by dsimp only; omega)
          (by dsimp only; rw [hprev_size]; exact hx)
          (by dsimp only; omega) (by dsimp only; rw [hprev_size]; exact hy)
          (by dsimp only
              exact (index_bounds_of_inBounds _ hprev_wf ((X : Nat) : Int) ((y : Nat) : Int)
                (by omega) (by rw [hprev_size]; exact hx) (by omega)
                (by rw [hprev_size]; exact hy)).2)]
        rw [if_pos (by omega)]
    · rw [Renterm.copyCellStep_getCell_ne _ _ _ _ _ _ (Or.inl (by dsimp only; omega))]
      rw [ih acc hwf X hx hy]
      by_cases hg : 0 ≤ (y : Int) * osx + (X : Int)
          ∧ ((y : Int) * osx + (X : Int)).toNat < oc.length
      · by_cases hXn : X < n
        · rw [if_pos ⟨hXn, hg⟩, if_pos ⟨Nat.lt_succ_of_lt hXn, hg⟩]
        · rw [if_neg (fun h => hXn h.1),
            if_neg (fun h => hXn (lt_of_le_of_ne (Nat.lt_succ_iff.mp h.1) hX))]
      · rw [if_neg (fun h => hg h.2), if_neg (fun h => hg h.2)]

theorem copyRowStep_getCell_ne_row (oc : List Cell) (osx : Int) (xmax : Nat)
    (acc : Renterm.Canvas) (y : Nat) (q : Vector2) (hq : q.y ≠ (y : Int)) :
    (Renterm.copyRowStep oc osx xmax acc y).getCell q = acc.getCell q :=
  foldl_copyCell_getCell_ne_row oc osx y q hq _ acc

theorem foldl_copyRow_size (oc : List Cell) (osx : Int) (xmax : Nat) :
    ∀ (l : List Nat) (base : Renterm.Canvas),
      (l.foldl (Renterm.copyRowStep oc osx xmax) base).size = base.size
  | [], base => rfl
  | y :: t, base => by
    rw [List.foldl_cons, foldl_copyRow_size oc osx xmax t _,
      Renterm.copyRowStep_size]

theorem foldl_copyRow_length (oc : List Cell) (osx : Int) (xmax : Nat) :
    ∀ (l : List Nat) (base : Renterm.Canvas),
      (l.foldl (Renterm.copyRowStep oc osx xmax) base).cells.length = base.cells.length
  | [], base => rfl
  | y :: t, base => by
    rw [List.foldl_cons, foldl_copyRow_length oc osx xmax t _,
      Renterm.copyRowStep_length]

theorem copyGrid_getCell_spec (oc : List Cell) (osx : Int) (xmax : Nat) :
    ∀ (ymax : Nat) (base : Renterm.Canvas), canvasWF base →
      ∀ X Y : Nat, (X : Int) < base.size.x → (Y : Int) < base.size.y →
      ((List.range ymax).foldl (Renterm.copyRowStep oc osx xmax) base).getCell
          ⟨(X : Int), (Y : Int)⟩ =
        if Y < ymax ∧ X < xmax ∧ 0 ≤ (Y : Int) * osx + (X : Int)
            ∧ ((Y : Int) * osx + (X : Int)).toNat < oc.length
        then oc.getD ((Y : Int) * osx + (X : Int)).toNat Cell.default
        else base.getCell ⟨(X : Int), (Y : Int)⟩ := by
  intro ymax
  induction ymax with
  | zero =>
    intro base hwf X Y hx hy
    rw [if_neg (by omega)]
    rfl
  | succ n ih =>
    intro base hwf X Y hx hy
    rw [List.range_succ, List.foldl_append, List.foldl_cons, List.foldl_nil]
    have hprev_size : ((List.range n).foldl (Renterm.copyRowStep oc osx xmax) base).size
        = base.size := foldl_copyRow_size oc osx xmax _ base
    have hprev_wf : canvasWF ((List.range n).foldl (Renterm.copyRowStep oc osx xmax) base) := by
      unfold canvasWF at *
      rw [hprev_size, foldl_copyRow_length]
      exact hwf
    by_cases hY : Y = n
    · subst hY
      rw [copyRowStep_getCell_spec oc osx Y xmax _ hprev_wf X
        (by rw [hprev_size]; exact hx) (by rw [hprev_size]; exact hy)]
      have hprev := ih base hwf X Y hx hy
      rw [if_neg (fun h => absurd h.1 (lt_irrefl Y))] at hprev
      rw [hprev]
      by_cases hg : X < xmax ∧ 0 ≤ (Y : Int) * osx + (X : Int)
          ∧ ((Y : Int) * osx + (X : Int)).toNat < oc.length
      · rw [if_pos hg, if_pos ⟨Nat.lt_succ_self Y, hg⟩]
      · rw [if_neg hg, if_neg (fun h => hg h.2)]
    · rw [copyRowStep_getCell_ne_row oc osx xmax _ n
        ({ x := (X : Int), y := (Y : Int) } : Vector2) (by dsimp only; omega)]
      rw [ih base hwf X Y hx hy]
      by_cases hg : X < xmax ∧ 0 ≤ (Y : Int) * osx + (X : Int)
          ∧ ((Y : Int) * osx + (X : Int)).toNat < oc.length
      · by_cases hYn : Y < n
        · rw [if_pos ⟨hYn, hg⟩, if_pos ⟨Nat.lt_succ_of_lt hYn, hg⟩]
        · rw [if_neg (fun h => hYn h.1),
            if_neg (fun h => hYn (lt_of_le_of_ne (Nat.lt_succ_iff.mp h.1) hY))]
      · rw [if_neg (fun h => hg h.2), if_neg (fun h => hg h.2)]

theorem setSize_size (c : Renterm.Canvas) (s : Vector2) :
    (c.setSize s).size = s := by
  unfold Renterm.Canvas.setSize
  dsimp only
  split_ifs with h
  · exact h
  · exact foldl_copyRow_size _ _ _ _ _

theorem setSize_length (c : Renterm.Canvas) (s : Vector2) (hc : cellsLenInv c) :
    (c.setSize s).cells.length = (s.x * s.y).natAbs := by
  unfold Renterm.Canvas.setSize
  dsimp only
  split_ifs with h
  · rw [hc, h]
  · rw [foldl_copyRow_length]
    simp

theorem setSize_lenInv (c : Renterm.Canvas) (s : Vector2) (hc : cellsLenInv c) :
    cellsLenInv (c.setSize s) := by
  unfold cellsLenInv
  rw [setSize_size, setSize_length c s hc]

theorem setSize_overlap (c : Renterm.Canvas) (s : Vector2)
    (hwf : canvasWF c) (hsx : 0 ≤ s.x) (hsy : 0 ≤ s.y)
    (X Y : Int) (hx1 : 0 ≤ X) (hx2 : X < Min.min s.x c.size.x)
    (hy1 : 0 ≤ Y) (hy2 : Y < Min.min s.y c.size.y) :
    (c.setSize s).getCell ⟨X, Y⟩ = c.getCell ⟨X, Y⟩ := by
  obtain ⟨hcx, hcy, hlen⟩ := hwf
  have hminx1 : Min.min s.x c.size.x ≤ s.x := min_le_left _ _
  have hminx2 : Min.min s.x c.size.x ≤ c.size.x := min_le_right _ _
  have hminy1 : Min.min s.y c.size.y ≤ s.y := min_le_left _ _
  have hminy2 : Min.min s.y c.size.y ≤ c.size.y := min_le_right _ _
  have hminx0 : 0 ≤ Min.min s.x c.size.x := le_min hsx hcx
  have hminy0 : 0 ≤ Min.min s.y c.size.y := le_min hsy hcy
  by_cases heq : c.size = s
  · unfold Renterm.Canvas.setSize
    rw [if_pos heq]
  · obtain ⟨Xn, rfl⟩ : ∃ n : Nat, X = (n : Int) := ⟨X.toNat, by omega⟩
    obtain ⟨Yn, rfl⟩ : ∃ n : Nat, Y = (n : Int) := ⟨Y.toNat, by omega⟩
    unfold Renterm.Canvas.setSize
    dsimp only
    rw [if_neg heq]
    have hbase_wf : canvasWF ⟨List.replicate (s.x * s.y).natAbs Cell.default, s⟩ := by
      refine ⟨hsx, hsy, ?_⟩
      simp [Int.natAbs_of_nonneg (mul_nonneg hsx hsy)]
    rw [copyGrid_getCell_spec c.cells c.size.x (Min.min s.x c.size.x).natAbs
      (Min.min s.y c.size.y).natAbs _ hbase_wf Xn Yn
      (by dsimp only; omega) (by dsimp only; omega)]
    have hidx := index_bounds_of_inBounds c ⟨hcx, hcy, hlen⟩ (Xn : Int) (Yn : Int)
      hx1 (by omega) hy1 (by omega)
    rw [if_pos ⟨by omega, by omega, by omega, by omega⟩]
    rw [getCell_inBounds c (Xn : Int) (Yn : Int) hx1 (by omega) hy1 (by omega) (by omega)]

theorem setSize_fill (c : Renterm.Canvas) (s : Vector2)
    (hwf : canvasWF c) (hsx : 0 ≤ s.x) (hsy : 0 ≤ s.y)
    (X Y : Int) (hx1 : 0 ≤ X) (hx2 : X < s.x) (hy1 : 0 ≤ Y) (hy2 : Y < s.y)
    (hout : Min.min s.x c.size.x ≤ X ∨ Min.min s.y c.size.y ≤ Y) :
    (c.setSize s).getCell ⟨X, Y⟩ = Cell.default := by
  obtain ⟨hcx, hcy, hlen⟩ := hwf
  have hminx1 : Min.min s.x c.size.x ≤ s.x := min_le_left _ _
  have hminx2 : Min.min s.x c.size.x ≤ c.size.x := min_le_right _ _
  have hminy1 : Min.min s.y c.size.y ≤ s.y := min_le_left _ _
  have hminy2 : Min.min s.y c.size.y ≤ c.size.y := min_le_right _ _
  have hminx0 : 0 ≤ Min.min s.x c.size.x := le_min hsx hcx
  have hminy0 : 0 ≤ Min.min s.y c.size.y := le_min hsy hcy
  by_cases heq : c.size = s
  · exfalso
    rw [heq] at hout
    rcases hout with h | h
    · rw [min_self] at h
      omega
    · rw [min_self] at h
      omega
  · obtain ⟨Xn, rfl⟩ : ∃ n : Nat, X = (n : Int) := ⟨X.toNat, by omega⟩
    obtain ⟨Yn, rfl⟩ : ∃ n : Nat, Y = (n : Int) := ⟨Y.toNat, by omega⟩
    unfold Renterm.Canvas.setSize
    dsimp only
    rw [if_neg heq]
    have hbase_wf : canvasWF ⟨List.replicate (s.x * s.y).natAbs Cell.default, s⟩ := by
      refine ⟨hsx, hsy, ?_⟩
      simp [Int.natAbs_of_nonneg (mul_nonneg hsx hsy)]
    rw [copyGrid_getCell_spec c.cells c.size.x (Min.min s.x c.size.x).natAbs
      (Min.min s.y c.size.y).natAbs _ hbase_wf Xn Yn
      (by dsimp only; omega) (by dsimp only; omega)]
    rw [if_neg (by omega)]
    exact base_getCell_default s _

/-- C8 counterexample: constructing a canvas with a negative size component
stores `abs(x*y)` cells, so the exact invariant `cells.len() == size.x *
size.y` fails right after construction. -/
theorem c8_negative_size_breaks_exact_invariant :
    (Renterm.Canvas.new ⟨-1, 5⟩).cells.length = 5
    ∧ (Renterm.Canvas.new ⟨-1, 5⟩).size.x * (Renterm.Canvas.new ⟨-1, 5⟩).size.y = -5
    ∧ ¬ (((Renterm.Canvas.new ⟨-1, 5⟩).cells.length : Int)
          = (Renterm.Canvas.new ⟨-1, 5⟩).size.x * (Renterm.Canvas.new ⟨-1, 5⟩).size.y) := by
  refine ⟨rfl, rfl, by decide⟩

/-- C8 amended: every canvas operation maintains `cells.len() =
abs(size.x * size.y)` — which is the exact `cells.len() = size.x * size.y`
whenever the size is componentwise non-negative — and `set_size` preserves
the overlapping top-left region of the old content while filling the newly
exposed area with the default cell. -/
theorem c8_canvas_invariant_and_resize :
    (∀ s cell, cellsLenInv (Renterm.Canvas.newFilled s cell))
    ∧ (∀ c p cell, cellsLenInv c → cellsLenInv (Renterm.Canvas.setCell c p cell))
    ∧ (∀ c s, cellsLenInv c → cellsLenInv (Renterm.Canvas.setSize c s))
    ∧ (∀ c r, cellsLenInv c → cellsLenInv (Renterm.Canvas.toSubView c r).1)
    ∧ (∀ c : Renterm.Canvas, cellsLenInv c → 0 ≤ c.size.x → 0 ≤ c.size.y →
        (c.cells.length : Int) = c.size.x * c.size.y)
    ∧ (∀ (c : Renterm.Canvas) (s : Vector2) (X Y : Int),
        canvasWF c → 0 ≤ s.x → 0 ≤ s.y →
        0 ≤ X → X < Min.min s.x c.size.x → 0 ≤ Y → Y < Min.min s.y c.size.y →
        (c.setSize s).getCell ⟨X, Y⟩ = c.getCell ⟨X, Y⟩)
    ∧ (∀ (c : Renterm.Canvas) (s : Vector2) (X Y : Int),
        canvasWF c → 0 ≤ s.x → 0 ≤ s.y →
        0 ≤ X → X < s.x → 0 ≤ Y → Y < s.y →
        (Min.min s.x c.size.x ≤ X ∨ Min.min s.y c.size.y ≤ Y) →
        (c.setSize s).getCell ⟨X, Y⟩ = Cell.default) := by
  refine ⟨?_, ?_, ?_, ?_, ?_, ?_, ?_⟩
  · intro s cell
    unfold cellsLenInv Renterm.Canvas.newFilled
    simp
  · intro c p cell hc
    unfold cellsLenInv at *
    rw [setCell_length, setCell_size]
    exact hc
  · exact fun c s hc => setSize_lenInv c s hc
  · intro c r hc
    exact setSize_lenInv c _ hc
  · intro c hc hx hy
    unfold cellsLenInv at hc
    rw [hc]
    simp [Int.natAbs_of_nonneg (mul_nonneg hx hy)]
  · exact fun c s X Y hwf h1 h2 h3 h4 h5 h6 => setSize_overlap c s hwf h1 h2 X Y h3 h4 h5 h6
  · exact fun c s X Y hwf h1 h2 h3 h4 h5 h6 h7 =>
      setSize_fill c s hwf h1 h2 X Y h3 h4 h5 h6 h7

/-- Witness for C8 amended at concrete inputs: resizing a 3×2 canvas that
holds `"A"` at `(1,1)` to 2×4 keeps the overlapping cell and defaults the
newly exposed cell at `(1,3)`; the length invariant holds exactly. -/
theorem c8_canvas_invariant_and_resize_witness :
    cellsLenInv ((Renterm.Canvas.new ⟨3, 2⟩).setCell ⟨1, 1⟩ (Cell.newStyled "A" Style.default))
    ∧ canvasWF ((Renterm.Canvas.new ⟨3, 2⟩).setCell ⟨1, 1⟩ (Cell.newStyled "A" Style.default))
    ∧ (((Renterm.Canvas.new ⟨3, 2⟩).setCell ⟨1, 1⟩
          (Cell.newStyled "A" Style.default)).setSize ⟨2, 4⟩).getCell ⟨1, 1⟩
        = ((Renterm.Canvas.new ⟨3, 2⟩).setCell ⟨1, 1⟩
            (Cell.newStyled "A" Style.default)).getCell ⟨1, 1⟩
    ∧ (((Renterm.Canvas.new ⟨3, 2⟩).setCell ⟨1, 1⟩
          (Cell.newStyled "A" Style.default)).setSize ⟨2, 4⟩).getCell ⟨1, 3⟩
        = Cell.default := by
  refine ⟨by unfold cellsLenInv; decide, by unfold canvasWF; decide, ?_, ?_⟩
  · exact (c8_canvas_invariant_and_resize.2.2.2.2.2.1)
      ((Renterm.Canvas.new ⟨3, 2⟩).setCell ⟨1, 1⟩ (Cell.newStyled "A" Style.default))
      ⟨2, 4⟩ 1 1 (by unfold canvasWF; decide) (by decide) (by decide) (by decide)
      (by decide) (by decide) (by decide)
  · exact (c8_canvas_invariant_and_resize.2.2.2.2.2.2)
      ((Renterm.Canvas.new ⟨3, 2⟩).setCell ⟨1, 1⟩ (Cell.newStyled "A" Style.default))
      ⟨2, 4⟩ 1 3 (by unfold canvasWF; decide) (by decide) (by decide) (by decide)
      (by decide) (by decide) (by decide) (by decide)

end Citymux
